import Mathlib

/-!
# GoHTMXWSChat: the connection pumps of `client.go`

A shallow embedding of `client.go` (the heartbeat constants, `ChatMessage`,
`Client.readPump`, `Client.writePump`, `serveWs`) together with the parts of
`encoding/json` and `github.com/google/uuid` that the pumps call.

Modelling conventions.

* Text. A Go `string` or `[]byte` that holds text is a `List Char`, the sequence
  of its code points. Every string that flows through the pumps is well-formed
  UTF-8: `uuid.UUID.String` is ASCII and `encoding/json` coerces what it decodes
  to well-formed UTF-8. A byte of an inbound frame that is not part of a
  well-formed sequence is read by `encoding/json` as U+FFFD inside a string
  literal and is a syntax error outside one, which is what the code point U+FFFD
  does here.
* Effects. Channel sends, transport calls and log lines are recorded, in program
  order, in a list of `Effect`s. What the transport and the scheduler decide
  (the result of `ReadMessage`, which `select` case fires, whether a write
  fails) is an input of the model.
* JSON numbers. `encoding/json` stores a number of a `map[string]interface{}` as
  a `float64` and reports a range error when `strconv.ParseFloat` overflows. The
  number is kept here as an exact decimal and only the range test is modelled
  (the literal overflows when its magnitude is at least `2^1024 - 2^970`, the
  midpoint between the largest `float64` and `2^1024`).
* Size. `readPump` sets the read limit to `maxMessageSize`, so `ReadMessage`
  returns no frame above 512 bytes. The two places where `encoding/json` treats
  very long inputs on their own (nesting deeper than 10000 is refused, exponents
  are clamped at five digits) are out of reach of such frames and of the
  messages `readPump` builds, and are not modelled.
-/

namespace GoHTMXWSChat

/-! ## Constants (`client.go`, lines 18-35) -/

/-- Go's `time.Second`: a `time.Duration` counts nanoseconds in an `int64`. -/
def second : Int := 1000000000

/-- Time allowed to write a message to the peer. -/
def writeWait : Int := 10 * second

/-- Time allowed to read the next pong message from the peer. -/
def pongWait : Int := 60 * second

/-- Send pings to peer with this period. Go's `/` on integers truncates. -/
def pingPeriod : Int := Int.tdiv (pongWait * 9) 10

/-- Maximum message size allowed from peer. -/
def maxMessageSize : Nat := 512

/-- The text carried by a frame, a channel message or a Go string. -/
abbrev Bytes := List Char

def newline : Bytes := ['\n']

def space : Bytes := [' ']

/-! ## `uuid.UUID` and `UUID.String` -/

/-- Go's `uuid.UUID`, the array type `[16]byte`. -/
structure UUID where
  bytes : List (Fin 256)
  size : bytes.length = 16
  deriving DecidableEq

/-- Go's `hextable` of `encoding/hex`, indexed by a nibble. -/
def hexDigit (n : Nat) : Char :=
  "0123456789abcdef".toList.getD n '0'

/-- Go's `hex.Encode`: two lower-case hex digits per byte, high nibble first. -/
def hexEncode : List (Fin 256) → Bytes
  | [] => []
  | v :: vs => hexDigit (v.val / 16) :: hexDigit (v.val % 16) :: hexEncode vs

/-- Go's `UUID.String` (`encodeHex`): the form
`xxxxxxxx-xxxx-xxxx-xxxx-xxxxxxxxxxxx`. -/
def UUID.String (u : UUID) : Bytes :=
  hexEncode (u.bytes.take 4) ++ '-' ::
  hexEncode ((u.bytes.drop 4).take 2) ++ '-' ::
  hexEncode ((u.bytes.drop 6).take 2) ++ '-' ::
  hexEncode ((u.bytes.drop 8).take 2) ++ '-' ::
  hexEncode (u.bytes.drop 10)

/-! ## JSON values and the `encoding/json` scanner -/

/-- A JSON number literal read exactly: its value is `± mant * 10 ^ exp10`. -/
structure Number where
  neg : Bool
  mant : Nat
  exp10 : Int
  deriving DecidableEq

mutual
/-- A JSON value. Object members are kept in source order. -/
inductive Json where
  | null
  | bool (b : Bool)
  | num (n : Number)
  | str (s : Bytes)
  | arr (xs : JsonList)
  | obj (ms : Members)
  deriving DecidableEq
/-- The elements of a JSON array. -/
inductive JsonList where
  | nil
  | cons (x : Json) (xs : JsonList)
  deriving DecidableEq
/-- The members of a JSON object, in source order. -/
inductive Members where
  | nil
  | cons (k : Bytes) (v : Json) (ms : Members)
  deriving DecidableEq
end

/-- Go's `isSpace` of the scanner. -/
def isSpace (c : Char) : Bool :=
  c = ' ' || c = '\t' || c = '\r' || c = '\n'

def skipSpace : Bytes → Bytes
  | [] => []
  | c :: cs => if isSpace c then skipSpace cs else c :: cs

/-- The value of a hex digit, as in Go's `getu4`. -/
def hexVal (c : Char) : Option Nat :=
  if '0' ≤ c ∧ c ≤ '9' then some (c.toNat - '0'.toNat)
  else if 'a' ≤ c ∧ c ≤ 'f' then some (c.toNat - 'a'.toNat + 10)
  else if 'A' ≤ c ∧ c ≤ 'F' then some (c.toNat - 'A'.toNat + 10)
  else none

/-- Four hex digits read as a UTF-16 code unit (the loop of Go's `getu4`). -/
def hex4 (a b c d : Char) : Option Nat :=
  match hexVal a, hexVal b, hexVal c, hexVal d with
  | some x, some y, some z, some w => some (((x * 16 + y) * 16 + z) * 16 + w)
  | _, _, _, _ => none

/-- Go's `getu4`: the code unit of a leading `\uXXXX`, if there is one. -/
def getu4 : Bytes → Option Nat
  | b :: u :: h1 :: h2 :: h3 :: h4 :: _ =>
    if b = '\\' ∧ u = 'u' then hex4 h1 h2 h3 h4 else none
  | _ => none

/-- Go's `unicode.ReplacementChar`. -/
def replacementChar : Char := Char.ofNat 0xFFFD

/-- The character of a one-letter escape (the `switch` of Go's `unquoteBytes`). -/
def unescape (e : Char) : Option Char :=
  if e = '"' then some '"'
  else if e = '\\' then some '\\'
  else if e = '/' then some '/'
  else if e = 'b' then some (Char.ofNat 8)
  else if e = 'f' then some (Char.ofNat 12)
  else if e = 'n' then some '\n'
  else if e = 'r' then some '\r'
  else if e = 't' then some '\t'
  else none

/-- Go's `utf16.DecodeRune` applied to a high surrogate `rr` and the code unit
of the escape that follows it: the combined character of a valid pair. -/
def surrogatePair (rr : Nat) (next : Option Nat) : Option Char :=
  match next with
  | some rr1 =>
    if rr < 0xDC00 ∧ 0xDC00 ≤ rr1 ∧ rr1 < 0xE000 then
      some (Char.ofNat ((rr - 0xD800) * 1024 + (rr1 - 0xDC00) + 0x10000))
    else none
  | none => none

/-- One escape of a string literal, read after its backslash (the `case '\\'` of
Go's `unquoteBytes`): the character it stands for and how many characters of the
input it takes. A `\u` escape that is a surrogate is combined with a following
low surrogate escape when the pair is valid and is U+FFFD otherwise. -/
def parseEscape : Bytes → Option (Char × Nat)
  | [] => none
  | e :: rest1 =>
    if e = 'u' then
      match rest1 with
      | h1 :: h2 :: h3 :: h4 :: rest2 =>
        match hex4 h1 h2 h3 h4 with
        | none => none
        | some rr =>
          if 0xD800 ≤ rr ∧ rr < 0xE000 then
            match surrogatePair rr (getu4 rest2) with
            | some ch => some (ch, 11)
            | none => some (replacementChar, 5)
          else some (Char.ofNat rr, 5)
      | _ => none
    else
      match unescape e with
      | none => none
      | some ch => some (ch, 1)

/-- The scanner's string states fused with Go's `unquoteBytes`: reads a string
literal after its opening quote and returns the decoded text and what follows
the closing quote. The first argument counts the characters of an escape that
are still to be passed over. -/
def parseStringSkip : Nat → Bytes → Option (Bytes × Bytes)
  | _, [] => none
  | skip + 1, _ :: rest => parseStringSkip skip rest
  | 0, c :: rest =>
    if c = '"' then some ([], rest)
    else if c = '\\' then
      match parseEscape rest with
      | none => none
      | some (ch, n) =>
        match parseStringSkip n rest with
        | none => none
        | some (s, r) => some (ch :: s, r)
    else if c.toNat < 0x20 then none
    else
      match parseStringSkip 0 rest with
      | none => none
      | some (s, r) => some (c :: s, r)

/-- A string literal after its opening quote. -/
def parseString (cs : Bytes) : Option (Bytes × Bytes) :=
  parseStringSkip 0 cs

/-- A maximal run of decimal digits and what follows it. -/
def takeDigits : Bytes → Bytes × Bytes
  | [] => ([], [])
  | c :: cs =>
    if c.isDigit then
      match takeDigits cs with
      | (ds, r) => (c :: ds, r)
    else ([], c :: cs)

/-- The number written by a run of decimal digits. -/
def natOfDigits (ds : Bytes) : Nat :=
  ds.foldl (fun n c => 10 * n + (c.toNat - '0'.toNat)) 0

/-- The scanner's states `state0` and `state1`: the integer part, a single `0`
or a non-zero digit followed by digits. -/
def parseInt : Bytes → Option (Bytes × Bytes)
  | [] => none
  | d :: r =>
    if d = '0' then some ([d], r)
    else if d.isDigit then some (takeDigits (d :: r))
    else none

/-- The scanner's states `stateDot` and `stateDot0`: an optional fraction, which
has at least one digit. -/
def parseFrac : Bytes → Option (Bytes × Bytes)
  | [] => some ([], [])
  | c :: r =>
    if c = '.' then
      match takeDigits r with
      | ([], _) => none
      | (fs, r1) => some (fs, r1)
    else some ([], c :: r)

/-- The scanner's states `stateE`, `stateESign` and `stateE0`: an optional
exponent, which has at least one digit. -/
def parseExp : Bytes → Option (Int × Bytes)
  | [] => some (0, [])
  | c :: r =>
    if c = 'e' ∨ c = 'E' then
      match r with
      | [] => none
      | s :: r1 =>
        if s = '-' then
          match takeDigits r1 with
          | ([], _) => none
          | (es, r2) => some (- (natOfDigits es : Int), r2)
        else if s = '+' then
          match takeDigits r1 with
          | ([], _) => none
          | (es, r2) => some ((natOfDigits es : Int), r2)
        else
          match takeDigits (s :: r1) with
          | ([], _) => none
          | (es, r2) => some ((natOfDigits es : Int), r2)
    else some (0, c :: r)

/-- A number literal: `-? (0 | [1-9][0-9]*) (. [0-9]+)? ([eE] [+-]? [0-9]+)?`. -/
def parseNumber (cs : Bytes) : Option (Number × Bytes) :=
  let signed : Bool × Bytes :=
    match cs with
    | [] => (false, [])
    | c :: r => if c = '-' then (true, r) else (false, c :: r)
  match parseInt signed.2 with
  | none => none
  | some (ds, r1) =>
    match parseFrac r1 with
    | none => none
    | some (fs, r2) =>
      match parseExp r2 with
      | none => none
      | some (e, r3) =>
        some (⟨signed.1, natOfDigits (ds ++ fs), e - (fs.length : Int)⟩, r3)

/-- A literal name (`true`, `false`, `null`) at the head of the input. -/
def parseLiteral (name : Bytes) (v : Json) (cs : Bytes) : Option (Json × Bytes) :=
  if name.isPrefixOf cs then some (v, cs.drop name.length) else none

mutual
/-- The scanner and decoder on one value. The first argument bounds the nesting
of the recursion; the length of the input plus one is always enough
(`parseValue_fuel_enough`). -/
def parseValue : Nat → Bytes → Option (Json × Bytes)
  | 0, _ => none
  | fuel + 1, cs =>
    match skipSpace cs with
    | [] => none
    | c :: rest =>
      if c = '{' then
        match skipSpace rest with
        | [] => none
        | d :: rest1 =>
          if d = '}' then some (Json.obj Members.nil, rest1)
          else
            match parseMembers fuel (d :: rest1) with
            | none => none
            | some (ms, r) => some (Json.obj ms, r)
      else if c = '[' then
        match skipSpace rest with
        | [] => none
        | d :: rest1 =>
          if d = ']' then some (Json.arr JsonList.nil, rest1)
          else
            match parseElements fuel (d :: rest1) with
            | none => none
            | some (xs, r) => some (Json.arr xs, r)
      else if c = '"' then
        match parseString rest with
        | none => none
        | some (s, r) => some (Json.str s, r)
      else if c = '-' ∨ c.isDigit then
        match parseNumber (c :: rest) with
        | none => none
        | some (n, r) => some (Json.num n, r)
      else if c = 't' then parseLiteral "true".toList (Json.bool true) (c :: rest)
      else if c = 'f' then parseLiteral "false".toList (Json.bool false) (c :: rest)
      else if c = 'n' then parseLiteral "null".toList Json.null (c :: rest)
      else none
/-- The members of an object after its opening brace, up to and including the
closing brace: `"key" : value` separated by commas. -/
def parseMembers : Nat → Bytes → Option (Members × Bytes)
  | 0, _ => none
  | fuel + 1, cs =>
    match skipSpace cs with
    | [] => none
    | c :: rest =>
      if c = '"' then
        match parseString rest with
        | none => none
        | some (k, r) =>
          match skipSpace r with
          | [] => none
          | e :: r1 =>
            if e = ':' then
              match parseValue fuel r1 with
              | none => none
              | some (v, r2) =>
                match skipSpace r2 with
                | [] => none
                | f :: r3 =>
                  if f = '}' then some (Members.cons k v Members.nil, r3)
                  else if f = ',' then
                    match parseMembers fuel r3 with
                    | none => none
                    | some (ms, r4) => some (Members.cons k v ms, r4)
                  else none
            else none
      else none
/-- The elements of an array after its opening bracket, up to and including the
closing bracket: values separated by commas. -/
def parseElements : Nat → Bytes → Option (JsonList × Bytes)
  | 0, _ => none
  | fuel + 1, cs =>
    match parseValue fuel cs with
    | none => none
    | some (v, r) =>
      match skipSpace r with
      | [] => none
      | f :: r1 =>
        if f = ']' then some (JsonList.cons v JsonList.nil, r1)
        else if f = ',' then
          match parseElements fuel r1 with
          | none => none
          | some (xs, r2) => some (JsonList.cons v xs, r2)
        else none
end

/-- Go's `checkValid` followed by the decoder: the whole input is one JSON value
surrounded by optional white space. -/
def parseJson (data : Bytes) : Option Json :=
  match parseValue (data.length + 1) data with
  | none => none
  | some (v, r) => if skipSpace r = [] then some v else none

/-! ## `json.Unmarshal` into `map[string]interface{}` -/

/-- The two ways `json.Unmarshal` fails: `*SyntaxError` and
`*UnmarshalTypeError`. -/
inductive JsonError where
  | syntaxError
  | unmarshalTypeError
  deriving DecidableEq

deriving instance DecidableEq for Except

/-- The least magnitude that `strconv.ParseFloat(s, 64)` rounds to infinity. -/
def float64Overflow : Nat := 2 ^ 1024 - 2 ^ 970

/-- Go's `convertNumber` succeeds: `strconv.ParseFloat` reports no range error. -/
def Number.inRange (n : Number) : Bool :=
  if 0 ≤ n.exp10 then decide (n.mant * 10 ^ n.exp10.toNat < float64Overflow)
  else decide (n.mant < float64Overflow * 10 ^ (-n.exp10).toNat)

mutual
/-- No number anywhere in the value makes `convertNumber` fail. -/
def Json.numbersInRange : Json → Bool
  | Json.null => true
  | Json.bool _ => true
  | Json.num n => n.inRange
  | Json.str _ => true
  | Json.arr xs => xs.numbersInRange
  | Json.obj ms => ms.numbersInRange
def JsonList.numbersInRange : JsonList → Bool
  | JsonList.nil => true
  | JsonList.cons x xs => x.numbersInRange && xs.numbersInRange
def Members.numbersInRange : Members → Bool
  | Members.nil => true
  | Members.cons _ v ms => v.numbersInRange && ms.numbersInRange
end

/-- Lookup in the Go map built from an object: the decoder assigns the members
in source order, so the last binding of a repeated key is the one that stays. -/
def Members.lookup (key : Bytes) : Members → Option Json
  | Members.nil => none
  | Members.cons k v ms =>
    match ms.lookup key with
    | some w => some w
    | none => if k = key then some v else none

/-- Go's `json.Unmarshal(data, &msg)` for a nil `msg map[string]interface{}`.
The input is checked first (`checkValid`); `null` leaves the map nil (read as
the empty map); an object fills the map, and the call still returns an error
when a number of the object, at any depth, is out of the `float64` range; any
other value is a type error. -/
def jsonUnmarshalMap (data : Bytes) : Except JsonError Members :=
  match parseJson data with
  | none => Except.error JsonError.syntaxError
  | some Json.null => Except.ok Members.nil
  | some (Json.obj ms) =>
    if ms.numbersInRange then Except.ok ms else Except.error JsonError.unmarshalTypeError
  | some _ => Except.error JsonError.unmarshalTypeError

/-! ## `ChatMessage` and its JSON encoding -/

structure ChatMessage where
  Sender : Bytes
  Message : Bytes
  deriving DecidableEq

/-- One character of a string as `encoding/json` writes it with HTML escaping on
(`appendString`, Go 1.22 and later; earlier releases write `\u0008` and `\u000c`
for backspace and form feed, which decode to the same characters). -/
def escapeChar (c : Char) : Bytes :=
  if c = '\\' ∨ c = '"' then ['\\', c]
  else if c = Char.ofNat 8 then ['\\', 'b']
  else if c = Char.ofNat 12 then ['\\', 'f']
  else if c = '\n' then ['\\', 'n']
  else if c = '\r' then ['\\', 'r']
  else if c = '\t' then ['\\', 't']
  else if c.toNat < 0x20 ∨ c = '<' ∨ c = '>' ∨ c = '&' then
    ['\\', 'u', '0', '0', hexDigit (c.toNat / 16), hexDigit (c.toNat % 16)]
  else if c = Char.ofNat 0x2028 ∨ c = Char.ofNat 0x2029 then
    ['\\', 'u', '2', '0', '2', hexDigit (c.toNat % 16)]
  else [c]

/-- The body of a string literal: every character escaped as needed. -/
def escapeString : Bytes → Bytes
  | [] => []
  | c :: cs => escapeChar c ++ escapeString cs

/-- Go's `appendString`: a quoted JSON string literal. -/
def quote (s : Bytes) : Bytes :=
  '"' :: escapeString s ++ ['"']

/-- The bytes `json.Marshal` writes for a `ChatMessage`: the two fields in
declaration order under their tags. Marshalling has no failing case for this
type. -/
def marshalBytes (m : ChatMessage) : Bytes :=
  "\x7b\"Sender\":".toList ++ quote m.Sender ++ ",\"Message\":".toList
    ++ quote m.Message ++ "\x7d".toList

/-- Go's `json.Marshal(newMessage)`. -/
def jsonMarshal (m : ChatMessage) : Except JsonError Bytes :=
  Except.ok (marshalBytes m)

/-! ## `json.Unmarshal` into a `ChatMessage` -/

/-- Go's `foldRune` on the runes that matter for the field names: the smallest
rune of the simple-folding orbit. Only the Kelvin sign and the long s fold to
an ASCII letter from outside ASCII; every other rune is left as it is, which
decides the comparison with an ASCII name the same way. -/
def foldRune (c : Char) : Char :=
  if 'a' ≤ c ∧ c ≤ 'z' then Char.ofNat (c.toNat - 32)
  else if c = Char.ofNat 0x17F then 'S'
  else if c = Char.ofNat 0x212A then 'K'
  else c

/-- Go's `foldName`. -/
def foldName (key : Bytes) : Bytes :=
  key.map foldRune

/-- The fields of `ChatMessage`. -/
inductive Field where
  | sender
  | message
  deriving DecidableEq

/-- The field an object key selects: an exact match with the tag first, then a
match under case folding (`byExactName`, then `byFoldedName`). -/
def lookupField (key : Bytes) : Option Field :=
  if key = "Sender".toList then some Field.sender
  else if key = "Message".toList then some Field.message
  else if foldName key = "SENDER".toList then some Field.sender
  else if foldName key = "MESSAGE".toList then some Field.message
  else none

/-- Go's `literalStore` and `d.value` on a string field: a string is stored,
`null` leaves the field as it is, every other value saves a type error. -/
def storeField (f : Field) (v : Json) (st : ChatMessage × Bool) : ChatMessage × Bool :=
  match v with
  | Json.str s =>
    match f with
    | Field.sender => ({ st.1 with Sender := s }, st.2)
    | Field.message => ({ st.1 with Message := s }, st.2)
  | Json.null => st
  | _ => (st.1, true)

/-- Go's `d.object` on a struct: the members are stored in source order; a key
that selects no field is skipped. The flag records a saved type error. -/
def fillChatMessage : Members → ChatMessage × Bool → ChatMessage × Bool
  | Members.nil, st => st
  | Members.cons k v ms, st =>
    match lookupField k with
    | some f => fillChatMessage ms (storeField f v st)
    | none => fillChatMessage ms st

/-- Go's `json.Unmarshal(message, &newMessage)` for a zero `ChatMessage`. -/
def jsonUnmarshalChatMessage (data : Bytes) : Except JsonError ChatMessage :=
  match parseJson data with
  | none => Except.error JsonError.syntaxError
  | some Json.null => Except.ok ⟨[], []⟩
  | some (Json.obj ms) =>
    match fillChatMessage ms (⟨[], []⟩, false) with
    | (m, false) => Except.ok m
    | (_, true) => Except.error JsonError.unmarshalTypeError
  | some _ => Except.error JsonError.unmarshalTypeError

/-! ## The client and the effects of its pumps -/

/-- Go's `Client`: the hub, the connection and the `send` channel are shared
handles whose uses are recorded as effects; the identity is the only field the
pumps compute with. -/
structure Client where
  id : UUID
  deriving DecidableEq

/-- Go's `websocket.TextMessage`, `CloseMessage` and `PingMessage`. -/
def TextMessage : Nat := 1

def CloseMessage : Nat := 8

def PingMessage : Nat := 9

/-- What a pump or `serveWs` does to the outside, in program order. -/
inductive Effect where
  /-- The call `c.conn.SetReadLimit(n)`. -/
  | setReadLimit (n : Nat)
  /-- The call `c.conn.SetReadDeadline(time.Now().Add(d))`. -/
  | setReadDeadline (d : Int)
  /-- The call `c.conn.SetPongHandler(...)`. -/
  | setPongHandler
  /-- A line written by `log.Printf` or `log.Println`. -/
  | logPrint
  /-- A line written by `fmt.Println`. -/
  | println (line : Bytes)
  /-- The send `c.hub.broadcast <- message`. -/
  | broadcast (message : Bytes)
  /-- The send `c.hub.register <- c`. -/
  | register (c : Client)
  /-- The send `c.hub.unregister <- c`. -/
  | unregister (c : Client)
  /-- The call `c.conn.Close()`. -/
  | connClose
  /-- The call `c.conn.SetWriteDeadline(time.Now().Add(d))`. -/
  | setWriteDeadline (d : Int)
  /-- The call `c.conn.WriteMessage(messageType, data)`. -/
  | writeMessage (messageType : Nat) (data : Bytes)
  /-- The call `c.conn.NextWriter(messageType)`. -/
  | nextWriter (messageType : Nat)
  /-- The call `w.Write(p)` on the writer of the current frame. -/
  | write (p : Bytes)
  /-- The call `w.Close()`, which flushes the frame to the transport. -/
  | writerClose
  /-- The call `ticker.Stop()`. -/
  | tickerStop
  /-- The statement `go client.writePump()`. -/
  | goWritePump (c : Client)
  /-- The statement `go client.readPump()`. -/
  | goReadPump (c : Client)
  deriving DecidableEq

/-- How one pass through the body of a pump's `for` loop ends. -/
inductive Iter where
  /-- The loop goes on to its next iteration (`continue`, or the end of the body). -/
  | next (effects : List Effect)
  /-- The loop is left (`break` or `return`). -/
  | stop (effects : List Effect)
  deriving DecidableEq

/-! ## `Client.readPump` (`client.go`, lines 63-108) -/

/-- What `c.conn.ReadMessage()` returns. -/
inductive ReadResult where
  /-- An error; the flag is the value of `websocket.IsUnexpectedCloseError(err,
  CloseGoingAway, CloseAbnormalClosure)`. Read errors include the expiry of the
  read deadline and a frame above the read limit. -/
  | error (unexpectedClose : Bool)
  /-- A frame. -/
  | message (data : Bytes)
  deriving DecidableEq

/-- What happens on the connection while `readPump` runs. -/
inductive ReadEvent where
  /-- A pong arrives inside `ReadMessage`, which runs the pong handler. -/
  | pong
  /-- The call `ReadMessage` returns. -/
  | read (r : ReadResult)
  deriving DecidableEq

/-- The key read from an inbound frame. -/
def chatinput : Bytes := "chatinput".toList

/-- The body of `readPump`'s loop (lines 72-106) on one result of `ReadMessage`,
over a JSON codec. -/
def readPumpIterWith (unmarshal : Bytes → Except JsonError Members)
    (marshal : ChatMessage → Except JsonError Bytes) (c : Client) : ReadResult → Iter
  | ReadResult.error unexpectedClose =>
    Iter.stop (if unexpectedClose then [Effect.logPrint] else [])
  | ReadResult.message message =>
    match unmarshal message with
    | Except.error _ => Iter.next []
    | Except.ok msg =>
      match msg.lookup chatinput with
      | some (Json.str chatMessage) =>
        match marshal { Sender := c.id.String, Message := chatMessage } with
        | Except.error _ => Iter.stop [Effect.logPrint]
        | Except.ok message1 => Iter.next [Effect.broadcast message1]
      | _ => Iter.next []

/-- The `for` loop of `readPump` over the events of the connection. The flag
tells whether the loop was left; it is `false` when the events end with the
pump waiting in `ReadMessage`. -/
def readPumpLoopWith (unmarshal : Bytes → Except JsonError Members)
    (marshal : ChatMessage → Except JsonError Bytes) (c : Client) :
    List ReadEvent → List Effect × Bool
  | [] => ([], false)
  | ReadEvent.pong :: evs =>
    match readPumpLoopWith unmarshal marshal c evs with
    | (effects, left) => (Effect.setReadDeadline pongWait :: effects, left)
  | ReadEvent.read r :: evs =>
    match readPumpIterWith unmarshal marshal c r with
    | Iter.next effects =>
      match readPumpLoopWith unmarshal marshal c evs with
      | (effects1, left) => (effects ++ effects1, left)
    | Iter.stop effects => (effects, true)

/-- The function `readPump` over a JSON codec: the three set-up calls, the loop,
and, once the loop is left, the deferred function (lines 64-67). -/
def readPumpWith (unmarshal : Bytes → Except JsonError Members)
    (marshal : ChatMessage → Except JsonError Bytes) (c : Client)
    (evs : List ReadEvent) : List Effect × Bool :=
  match readPumpLoopWith unmarshal marshal c evs with
  | (effects, left) =>
    ([Effect.setReadLimit maxMessageSize, Effect.setReadDeadline pongWait,
        Effect.setPongHandler] ++ effects ++
      (if left then [Effect.unregister c, Effect.connClose] else []), left)

/-- The loop body of `readPump` with `encoding/json`. -/
def readPumpIter (c : Client) (r : ReadResult) : Iter :=
  readPumpIterWith jsonUnmarshalMap jsonMarshal c r

/-- The loop of `readPump` with `encoding/json`. -/
def readPumpLoop (c : Client) (evs : List ReadEvent) : List Effect × Bool :=
  readPumpLoopWith jsonUnmarshalMap jsonMarshal c evs

/-- The function `readPump`. -/
def readPump (c : Client) (evs : List ReadEvent) : List Effect × Bool :=
  readPumpWith jsonUnmarshalMap jsonMarshal c evs

/-! ## `Client.writePump` (`client.go`, lines 115-182) -/

/-- The body value that marks a typing notice. -/
def typing : Bytes := "\x7b\x7btyping\x7d\x7d".toList

/-- Line 149, before the body. -/
def selfPrefix : Bytes :=
  "<div id=\"chatloading\" hx-swap-oob=\"beforebegin\"><p><strong>You</strong>: ".toList

/-- Lines 149 and 155, after the body. -/
def messageSuffix : Bytes :=
  "</p><div hx-get=\"/scroll\" hx-target=\"#chat_room\" hx-swap=\"beforebegin scroll:#chat_room:bottom\" hx-trigger=\"load\"></div></div><input id=\"chatinput\" name=\"chatinput\" autocomplete=\"off\" autofocus hx-select-oob=\"#chatinput\" hx-swap=\"none scroll:#chat_room:bottom\"><div id=\"chatloading\" class=\"htmx-indicator\" hx-swap-oob=\"outerHTML\"><p>Someone is typing...</p></div>".toList

/-- Line 153. -/
def typingFragment : Bytes :=
  "<div id=\"chatloading\" hx-swap-oob=\"beforebegin\"><div hx-trigger=\"load\" hx-get=\"/sleep\" hx-target=\"#chatloading\" hx-indicator=\"#chatloading\" hx-swap=\"beforebegin\"></div><div hx-get=\"/scroll\" hx-target=\"#chat_room\" hx-swap=\"beforebegin scroll:#chat_room:bottom\" hx-trigger=\"load\"></div></div>".toList

/-- Line 155, before the client's identity. -/
def peerPrefix : Bytes :=
  "<div id=\"chatloading\" hx-swap-oob=\"beforebegin\"><p><strong>".toList

/-- Line 155, between the client's identity and the body. -/
def peerInfix : Bytes := "</strong>: ".toList

/-- Lines 144-160: the bytes written for a decoded message. -/
def render (c : Client) (newMessage : ChatMessage) : Bytes :=
  if newMessage.Sender = c.id.String then
    if newMessage.Message = typing then []
    else selfPrefix ++ newMessage.Message ++ messageSuffix
  else
    if newMessage.Message = typing then typingFragment
    else peerPrefix ++ c.id.String ++ peerInfix ++ newMessage.Message ++ messageSuffix

/-- What `fmt.Println(newMessage)` prints for a struct of two strings. -/
def printStruct (m : ChatMessage) : Bytes :=
  "\x7b".toList ++ m.Sender ++ space ++ m.Message ++ "\x7d".toList

/-- The channel `c.send`: the buffered messages, oldest first, and whether the
hub has closed it. -/
structure Mailbox where
  queue : List Bytes
  closed : Bool
  deriving DecidableEq

/-- Lines 167-170, `for i := 0; i < n; i++`: each pass writes a newline and the
next message received from `c.send`. A receive from the closed and empty channel
yields the zero value. -/
def drain : Nat → List Bytes → List Effect × List Bytes
  | 0, queue => ([], queue)
  | n + 1, [] =>
    match drain n [] with
    | (effects, queue) => (Effect.write newline :: Effect.write [] :: effects, queue)
  | n + 1, m :: rest =>
    match drain n rest with
    | (effects, queue) => (Effect.write newline :: Effect.write m :: effects, queue)

/-- The `select` case `message, ok := <-c.send` (lines 123-174) when the channel
has a message or is closed. The two flags say whether `NextWriter` and
`w.Close` return an error. Nothing is put on the channel while the case runs. -/
def writePumpRecv (c : Client) (send : Mailbox) (nextWriterErr closeErr : Bool) :
    Iter × Mailbox :=
  match send.queue with
  | [] =>
    (Iter.stop [Effect.setWriteDeadline writeWait, Effect.writeMessage CloseMessage []], send)
  | message :: rest =>
    if nextWriterErr then
      (Iter.stop [Effect.setWriteDeadline writeWait, Effect.nextWriter TextMessage],
        { send with queue := rest })
    else
      match jsonUnmarshalChatMessage message with
      | Except.error _ =>
        (Iter.stop [Effect.setWriteDeadline writeWait, Effect.nextWriter TextMessage,
          Effect.logPrint], { send with queue := rest })
      | Except.ok newMessage =>
        match drain rest.length rest with
        | (writes, rest1) =>
          let effects := [Effect.setWriteDeadline writeWait, Effect.nextWriter TextMessage,
            Effect.println (printStruct newMessage), Effect.println (render c newMessage),
            Effect.write (render c newMessage)] ++ writes ++ [Effect.writerClose]
          (if closeErr then Iter.stop effects else Iter.next effects,
            { send with queue := rest1 })

/-- The `select` case `<-ticker.C` (lines 175-179); the flag says whether
writing the ping returns an error. -/
def writePumpTick (pingErr : Bool) : Iter :=
  let effects := [Effect.setWriteDeadline writeWait, Effect.writeMessage PingMessage []]
  if pingErr then Iter.stop effects else Iter.next effects

/-- What happens around `writePump`: the hub puts a message on `c.send` or
closes it, or the `select` takes one of its two cases. -/
inductive WriteEvent where
  | hubSend (message : Bytes)
  | hubClose
  | recv (nextWriterErr closeErr : Bool)
  | tick (pingErr : Bool)
  deriving DecidableEq

/-- The `for` loop of `writePump` over the events. The receive case is taken
only when it is ready; the flag tells whether the loop was left. -/
def writePumpLoop (c : Client) : Mailbox → List WriteEvent → List Effect × Mailbox × Bool
  | send, [] => ([], send, false)
  | send, WriteEvent.hubSend message :: evs =>
    writePumpLoop c { send with queue := send.queue ++ [message] } evs
  | send, WriteEvent.hubClose :: evs =>
    writePumpLoop c { send with closed := true } evs
  | send, WriteEvent.recv nextWriterErr closeErr :: evs =>
    if send.queue = [] ∧ send.closed = false then writePumpLoop c send evs
    else
      match writePumpRecv c send nextWriterErr closeErr with
      | (Iter.next effects, send1) =>
        match writePumpLoop c send1 evs with
        | (effects1, send2, left) => (effects ++ effects1, send2, left)
      | (Iter.stop effects, send1) => (effects, send1, true)
  | send, WriteEvent.tick pingErr :: evs =>
    match writePumpTick pingErr with
    | Iter.next effects =>
      match writePumpLoop c send evs with
      | (effects1, send1, left) => (effects ++ effects1, send1, left)
    | Iter.stop effects => (effects, send, true)

/-- The function `writePump`: the loop and, once it is left, the deferred
function (lines 117-120). -/
def writePump (c : Client) (send : Mailbox) (evs : List WriteEvent) :
    List Effect × Mailbox × Bool :=
  match writePumpLoop c send evs with
  | (effects, send1, left) =>
    (effects ++ (if left then [Effect.tickerStop, Effect.connClose] else []), send1, left)

/-- The payloads of the `w.Write` calls of an effect list, in order. -/
def writesOf : List Effect → List Bytes
  | [] => []
  | Effect.write p :: effects => p :: writesOf effects
  | _ :: effects => writesOf effects

/-- The frame that the writer of one receive case hands to the transport: all
that was written to it, in order. -/
def frameOf (effects : List Effect) : Bytes :=
  (writesOf effects).flatten

/-- The effects of an iteration, however it ends. -/
def Iter.effects : Iter → List Effect
  | Iter.next effects => effects
  | Iter.stop effects => effects

/-! ## `serveWs` (`client.go`, lines 185-202) -/

/-- How a call ends: it returns, or the process exits with a status. -/
inductive Outcome where
  | returned
  | processExit (status : Nat)
  deriving DecidableEq

/-- The function `serveWs`. The inputs are whether `upgrader.Upgrade` returns an
error and what `uuid.NewUUID` returns (`none` for an error). Go's `log.Fatal`
prints and then calls `os.Exit(1)`. -/
def serveWs (upgradeErr : Bool) (newUUID : Option UUID) : List Effect × Outcome :=
  if upgradeErr then ([Effect.logPrint], Outcome.returned)
  else
    match newUUID with
    | none => ([Effect.logPrint], Outcome.processExit 1)
    | some id =>
      ([Effect.register ⟨id⟩, Effect.goWritePump ⟨id⟩, Effect.goReadPump ⟨id⟩],
        Outcome.returned)

/-! ## Statements of the specification, in its own words -/

/-- The spec's reading of an inbound frame: the string bound to `chatinput` when
the frame is a JSON object in which that key is bound to a string. -/
def chatinputOf (frame : Bytes) : Option Bytes :=
  match parseJson frame with
  | some (Json.obj ms) =>
    match ms.lookup chatinput with
    | some (Json.str s) => some s
    | _ => none
  | _ => none

/-- The frame is JSON text none of whose numbers overflows a `float64`. -/
def numbersFit (frame : Bytes) : Bool :=
  match parseJson frame with
  | some v => v.numbersInRange
  | none => false

/-- The text is a JSON object. -/
def isJsonObject (data : Bytes) : Bool :=
  match parseJson data with
  | some (Json.obj _) => true
  | _ => false

/-- What a consumer gets by splitting a frame on newline. -/
def splitOnNewline : Bytes → List Bytes
  | [] => [[]]
  | c :: cs =>
    match splitOnNewline cs with
    | [] => [[]]
    | p :: ps => if c = '\n' then [] :: p :: ps else (c :: p) :: ps

/-- The frame `{"chatinput": s}` in the encoding of `encoding/json`. -/
def chatinputFrame (s : Bytes) : Bytes :=
  "\x7b\"chatinput\":".toList ++ quote s ++ "\x7d".toList

/-- The frame `{"chatinput":"hi","n":1e999}`: a JSON object whose number `n`
does not fit a `float64`. -/
def frameOverflow : Bytes := "\x7b\"chatinput\":\"hi\",\"n\":1e999\x7d".toList

/-- The frame `{"chatinput":"hi","Sender":"mallory"}`: the client supplies a
`Sender` of its own. -/
def frameSpoof : Bytes := "\x7b\"chatinput\":\"hi\",\"Sender\":\"mallory\"\x7d".toList

/-- An effect of the teardown: the send of `Unregister` or the close of the
connection. -/
def Effect.isTeardown : Effect → Bool
  | Effect.unregister _ => true
  | Effect.connClose => true
  | _ => false

/-- A client whose identity is the zero UUID. -/
def clientA : Client := ⟨⟨List.replicate 16 0, by decide⟩⟩

/-- A client whose identity is the UUID of sixteen bytes `0x11`. -/
def clientB : Client := ⟨⟨List.replicate 16 17, by decide⟩⟩

/-- The loop is left after this iteration. -/
def Iter.isStop : Iter → Bool
  | Iter.next _ => false
  | Iter.stop _ => true

/-- The frame `{"chatinput":"hi"}`. -/
def frameHi : Bytes := "\x7b\"chatinput\":\"hi\"\x7d".toList

/-- The bound `f` is not what decides a successful `parseValue`: the rest is no
longer than the input, and every bound above the number of characters read
gives the same result. -/
def FuelEnoughValue (f : Nat) : Prop :=
  ∀ cs v r, parseValue f cs = some (v, r) →
    r.length ≤ cs.length ∧ ∀ g, cs.length - r.length + 1 ≤ g → parseValue g cs = some (v, r)

/-- The same for `parseMembers`. -/
def FuelEnoughMembers (f : Nat) : Prop :=
  ∀ cs ms r, parseMembers f cs = some (ms, r) →
    r.length ≤ cs.length ∧ ∀ g, cs.length - r.length + 1 ≤ g → parseMembers g cs = some (ms, r)

/-- The same for `parseElements`. -/
def FuelEnoughElements (f : Nat) : Prop :=
  ∀ cs xs r, parseElements f cs = some (xs, r) →
    r.length ≤ cs.length ∧ ∀ g, cs.length - r.length + 1 ≤ g → parseElements g cs = some (xs, r)

/-! ## The JSON codec on examples -/

/-- String literals: escapes, a surrogate pair, a lone surrogate. -/
theorem parseString_examples :
    parseString "a\\u00e9\\n\\ud83d\\ude00b\"rest".toList
      = some ("aé\n😀b".toList, "rest".toList) ∧
    parseString "a\\ud83d\\u0041b\"rest".toList
      = some (['a', replacementChar, 'A', 'b'], "rest".toList) ∧
    parseString "a\\ud83d\"rest".toList = some (['a', replacementChar], "rest".toList) ∧
    parseString "a\\qb\"".toList = none ∧
    parseString "a\nb\"".toList = none ∧
    parseString "ab".toList = none := by
  decide

/-- The scanner: what is accepted and what is a syntax error. -/
theorem parseJson_examples :
    parseJson " \x7b \"a\" : [1, -2.50e+3 ,true , null, \x7b\x7d, [ ] ], \"b\":\"x\" \x7d\n".toList
      = some (Json.obj (Members.cons ['a']
          (Json.arr (JsonList.cons (Json.num ⟨false, 1, 0⟩)
            (JsonList.cons (Json.num ⟨true, 250, 1⟩)
            (JsonList.cons (Json.bool true)
            (JsonList.cons Json.null
            (JsonList.cons (Json.obj Members.nil)
            (JsonList.cons (Json.arr JsonList.nil) JsonList.nil)))))))
          (Members.cons ['b'] (Json.str ['x']) Members.nil))) ∧
    parseJson "01".toList = none ∧
    parseJson "1.".toList = none ∧
    parseJson "[1,]".toList = none ∧
    parseJson "\x7b\"a\":1,\x7d".toList = none ∧
    parseJson "nul".toList = none ∧
    parseJson "-".toList = none ∧
    parseJson "1e5 x".toList = none ∧
    parseJson "1E-5 ".toList = some (Json.num ⟨false, 1, -5⟩) ∧
    parseJson "".toList = none := by
  decide

set_option exponentiation.threshold 2000 in
set_option maxRecDepth 8000 in
/-- Decoding into a map: the range of numbers, at any depth. A decimal just
below the midpoint between the largest `float64` and `2^1024` is accepted, one
just above it is not, and an underflow is no error; `null` gives the empty map;
the last binding of a repeated key is the one looked up. -/
theorem jsonUnmarshalMap_examples :
    jsonUnmarshalMap "\x7b\"chatinput\":\"hi\",\"n\":1e999\x7d".toList
      = Except.error JsonError.unmarshalTypeError ∧
    jsonUnmarshalMap "\x7b\"n\":[1e308, 1.7976931348623158e308, 1e-999]\x7d".toList
      ≠ Except.error JsonError.unmarshalTypeError ∧
    jsonUnmarshalMap "\x7b\"n\":[1e308, 1.7976931348623159e308]\x7d".toList
      = Except.error JsonError.unmarshalTypeError ∧
    jsonUnmarshalMap "null".toList = Except.ok Members.nil ∧
    jsonUnmarshalMap "[1]".toList = Except.error JsonError.unmarshalTypeError ∧
    jsonUnmarshalMap "\x7b".toList = Except.error JsonError.syntaxError ∧
    (Members.cons ['a'] (Json.str ['x']) (Members.cons ['a'] (Json.num ⟨false, 5, 0⟩)
      Members.nil)).lookup ['a'] = some (Json.num ⟨false, 5, 0⟩) := by
  decide

/-- Encoding and decoding a `ChatMessage`: HTML-safe escapes, keys matched
under case folding, `null` and unknown keys passed over, a number for a string
field refused. -/
theorem jsonChatMessage_examples :
    jsonMarshal ⟨"ab".toList, "<x>\n\"q\"".toList⟩
      = Except.ok "\x7b\"Sender\":\"ab\",\"Message\":\"\\u003cx\\u003e\\n\\\"q\\\"\"\x7d".toList ∧
    jsonUnmarshalChatMessage
        "\x7b\"Sender\":\"ab\",\"Message\":\"\\u003cx\\u003e\\n\\\"q\\\"\"\x7d".toList
      = Except.ok ⟨"ab".toList, "<x>\n\"q\"".toList⟩ ∧
    jsonUnmarshalChatMessage "\x7b\"sEnder\":\"ab\",\"message\":null, \"x\":5\x7d".toList
      = Except.ok ⟨"ab".toList, []⟩ ∧
    jsonUnmarshalChatMessage "\x7b\"sEnder\":\"ab\",\"message\":5\x7d".toList
      = Except.error JsonError.unmarshalTypeError ∧
    jsonUnmarshalChatMessage "null".toList = Except.ok ⟨[], []⟩ ∧
    jsonUnmarshalChatMessage "5".toList = Except.error JsonError.unmarshalTypeError := by
  decide

set_option maxRecDepth 100000 in
/-- A run of `readPump` and a run of `writePump` from start to teardown. -/
theorem pump_run_examples :
    readPump clientA
        [ReadEvent.read (ReadResult.message frameHi), ReadEvent.pong,
          ReadEvent.read (ReadResult.message "oops".toList),
          ReadEvent.read (ReadResult.error true)]
      = ([Effect.setReadLimit 512, Effect.setReadDeadline pongWait, Effect.setPongHandler,
          Effect.broadcast (marshalBytes ⟨clientA.id.String, "hi".toList⟩),
          Effect.setReadDeadline pongWait, Effect.logPrint,
          Effect.unregister clientA, Effect.connClose], true) ∧
    writePump clientA ⟨[], false⟩
        [WriteEvent.tick false, WriteEvent.hubSend (marshalBytes ⟨clientA.id.String, typing⟩),
          WriteEvent.recv false false, WriteEvent.hubClose, WriteEvent.recv false false]
      = ([Effect.setWriteDeadline writeWait, Effect.writeMessage PingMessage [],
          Effect.setWriteDeadline writeWait, Effect.nextWriter TextMessage,
          Effect.println (printStruct ⟨clientA.id.String, typing⟩), Effect.println [],
          Effect.write [], Effect.writerClose,
          Effect.setWriteDeadline writeWait, Effect.writeMessage CloseMessage [],
          Effect.tickerStop, Effect.connClose], ⟨[], true⟩, true) := by
  decide

/-! ## The bound on the recursion of the scanner -/

theorem skipSpace_length (cs : Bytes) : (skipSpace cs).length ≤ cs.length := by
  induction cs with
  | nil => simp [skipSpace]
  | cons c cs ih =>
    simp only [skipSpace]
    split
    · simp only [List.length_cons]; omega
    · exact Nat.le_refl _

theorem parseStringSkip_length (cs : Bytes) :
    ∀ n s r, parseStringSkip n cs = some (s, r) → r.length ≤ cs.length := by
  induction cs with
  | nil => intro n s r h; simp [parseStringSkip] at h
  | cons c rest ih =>
    intro n s r h
    cases n with
    | succ n =>
      rw [parseStringSkip] at h
      have := ih n s r h
      simp only [List.length_cons]; omega
    | zero =>
      rw [parseStringSkip] at h
      simp only [List.length_cons]
      split at h
      · simp only [Option.some.injEq, Prod.mk.injEq] at h
        rw [← h.2]; omega
      · split at h
        · split at h
          · simp at h
          · rename_i ch n1 _
            cases hp : parseStringSkip n1 rest with
            | none => rw [hp] at h; simp at h
            | some p =>
              obtain ⟨s1, r1⟩ := p
              rw [hp] at h
              simp only [Option.some.injEq, Prod.mk.injEq] at h
              have := ih n1 s1 r1 hp
              rw [← h.2]; omega
        · split at h
          · simp at h
          · cases hp : parseStringSkip 0 rest with
            | none => rw [hp] at h; simp at h
            | some p =>
              obtain ⟨s1, r1⟩ := p
              rw [hp] at h
              simp only [Option.some.injEq, Prod.mk.injEq] at h
              have := ih 0 s1 r1 hp
              rw [← h.2]; omega

theorem takeDigits_length (cs : Bytes) : (takeDigits cs).2.length ≤ cs.length := by
  induction cs with
  | nil => simp [takeDigits]
  | cons c cs ih =>
    simp only [takeDigits]
    split
    · simp only [List.length_cons]
      cases ht : takeDigits cs with
      | mk ds r =>
        rw [ht] at ih
        simp only at ih ⊢
        omega
    · exact Nat.le_refl _


theorem parseInt_length (cs ds r : Bytes) (h : parseInt cs = some (ds, r)) :
    r.length ≤ cs.length := by
  cases cs with
  | nil => simp [parseInt] at h
  | cons d rest =>
    simp only [parseInt] at h
    split at h
    · simp only [Option.some.injEq, Prod.mk.injEq] at h
      rw [← h.2]; simp
    · split at h
      · simp only [Option.some.injEq] at h
        have := takeDigits_length (d :: rest)
        rw [h] at this
        exact this
      · simp at h

theorem parseFrac_length (cs fs r : Bytes) (h : parseFrac cs = some (fs, r)) :
    r.length ≤ cs.length := by
  cases cs with
  | nil =>
    simp only [parseFrac, Option.some.injEq, Prod.mk.injEq] at h
    rw [← h.2]
  | cons c rest =>
    simp only [parseFrac] at h
    split at h
    · have := takeDigits_length rest
      split at h
      · simp at h
      · rename_i fs1 r1 _ ht
        rw [ht] at this
        simp only [Option.some.injEq, Prod.mk.injEq] at h
        rw [← h.2]
        simp only [List.length_cons] at this ⊢
        omega
    · simp only [Option.some.injEq, Prod.mk.injEq] at h
      rw [← h.2]

theorem parseExp_length (cs : Bytes) (e : Int) (r : Bytes) (h : parseExp cs = some (e, r)) :
    r.length ≤ cs.length := by
  cases cs with
  | nil =>
    simp only [parseExp, Option.some.injEq, Prod.mk.injEq] at h
    rw [← h.2]
  | cons c rest =>
    simp only [parseExp] at h
    split at h
    · cases rest with
      | nil => simp at h
      | cons s r1 =>
        simp only at h
        split at h
        · have := takeDigits_length r1
          split at h
          · simp at h
          · rename_i es r2 _ ht
            rw [ht] at this
            simp only [Option.some.injEq, Prod.mk.injEq] at h
            rw [← h.2]
            simp only [List.length_cons] at this ⊢
            omega
        · split at h
          · have := takeDigits_length r1
            split at h
            · simp at h
            · rename_i es r2 _ ht
              rw [ht] at this
              simp only [Option.some.injEq, Prod.mk.injEq] at h
              rw [← h.2]
              simp only [List.length_cons] at this ⊢
              omega
          · have := takeDigits_length (s :: r1)
            split at h
            · simp at h
            · rename_i es r2 _ ht
              rw [ht] at this
              simp only [Option.some.injEq, Prod.mk.injEq] at h
              rw [← h.2]
              simp only [List.length_cons] at this ⊢
              omega
    · simp only [Option.some.injEq, Prod.mk.injEq] at h
      rw [← h.2]

theorem parseNumber_length (cs : Bytes) (n : Number) (r : Bytes)
    (h : parseNumber cs = some (n, r)) : r.length ≤ cs.length := by
  unfold parseNumber at h
  simp only at h
  have hsigned : (match cs with
      | [] => ((false, []) : Bool × Bytes)
      | c :: r => if c = '-' then (true, r) else (false, c :: r)).2.length ≤ cs.length := by
    cases cs with
    | nil => simp
    | cons c rest =>
      simp only
      split <;> simp
  revert h hsigned
  generalize (match cs with
      | [] => ((false, []) : Bool × Bytes)
      | c :: r => if c = '-' then (true, r) else (false, c :: r)) = signed
  intro h hsigned
  cases h1 : parseInt signed.2 with
  | none => rw [h1] at h; simp at h
  | some p1 =>
    obtain ⟨ds, r1⟩ := p1
    rw [h1] at h
    simp only at h
    cases h2 : parseFrac r1 with
    | none => rw [h2] at h; simp at h
    | some p2 =>
      obtain ⟨fs, r2⟩ := p2
      rw [h2] at h
      simp only at h
      cases h3 : parseExp r2 with
      | none => rw [h3] at h; simp at h
      | some p3 =>
        obtain ⟨e, r3⟩ := p3
        rw [h3] at h
        simp only [Option.some.injEq, Prod.mk.injEq] at h
        have a1 := parseInt_length _ _ _ h1
        have a2 := parseFrac_length _ _ _ h2
        have a3 := parseExp_length _ _ _ h3
        rw [← h.2]
        omega

theorem parseLiteral_length (name : Bytes) (v w : Json) (cs r : Bytes)
    (h : parseLiteral name v cs = some (w, r)) : r.length ≤ cs.length := by
  simp only [parseLiteral] at h
  split at h
  · simp only [Option.some.injEq, Prod.mk.injEq] at h
    rw [← h.2]
    simp
  · simp at h


theorem fuelEnoughValue_succ (f : Nat) (hm : FuelEnoughMembers f) (he : FuelEnoughElements f) :
    FuelEnoughValue (f + 1) := by
  intro cs v r h
  rw [parseValue] at h
  have hsp := skipSpace_length cs
  cases hs : skipSpace cs with
  | nil => rw [hs] at h; simp at h
  | cons c rest =>
    rw [hs] at h hsp
    simp only [List.length_cons] at h hsp
    have unfoldGoal : ∀ g, cs.length - r.length + 1 ≤ g → ∃ g1, g = g1 + 1 :=
      fun g hg => ⟨g - 1, by omega⟩
    by_cases hc : c = '{'
    · simp only [hc, if_true] at h
      have hsp2 := skipSpace_length rest
      cases hs2 : skipSpace rest with
      | nil => rw [hs2] at h; simp at h
      | cons d rest1 =>
        rw [hs2] at h hsp2
        simp only [List.length_cons] at h hsp2
        by_cases hd : d = '}'
        · simp only [hd, if_true, Option.some.injEq, Prod.mk.injEq] at h
          obtain ⟨hv, hr⟩ := h
          subst hv hr
          refine ⟨by omega, fun g hg => ?_⟩
          obtain ⟨g1, rfl⟩ := unfoldGoal g hg
          rw [parseValue, hs]
          simp only [hc, if_true, hs2, hd]
        · simp only [hd, if_false] at h
          cases hp : parseMembers f (d :: rest1) with
          | none => rw [hp] at h; simp at h
          | some p =>
            obtain ⟨ms, r1⟩ := p
            rw [hp] at h
            simp only [Option.some.injEq, Prod.mk.injEq] at h
            obtain ⟨hv, hr⟩ := h
            subst hv hr
            obtain ⟨hl, hg1⟩ := hm _ _ _ hp
            simp only [List.length_cons] at hl hg1
            refine ⟨by omega, fun g hg => ?_⟩
            obtain ⟨g1, rfl⟩ := unfoldGoal g hg
            rw [parseValue, hs]
            simp only [hc, if_true, hs2, hd, if_false]
            rw [hg1 g1 (by omega)]
    · simp only [hc, if_false] at h
      by_cases hb : c = '['
      · simp only [hb, if_true] at h
        have hsp2 := skipSpace_length rest
        cases hs2 : skipSpace rest with
        | nil => rw [hs2] at h; simp at h
        | cons d rest1 =>
          rw [hs2] at h hsp2
          simp only [List.length_cons] at h hsp2
          by_cases hd : d = ']'
          · simp only [hd, if_true, Option.some.injEq, Prod.mk.injEq] at h
            obtain ⟨hv, hr⟩ := h
            subst hv hr
            refine ⟨by omega, fun g hg => ?_⟩
            obtain ⟨g1, rfl⟩ := unfoldGoal g hg
            rw [parseValue, hs]
            simp only [hb, show ¬ ('[' : Char) = '{' from by decide, if_false, if_true, hs2, hd]
          · simp only [hd, if_false] at h
            cases hp : parseElements f (d :: rest1) with
            | none => rw [hp] at h; simp at h
            | some p =>
              obtain ⟨xs, r1⟩ := p
              rw [hp] at h
              simp only [Option.some.injEq, Prod.mk.injEq] at h
              obtain ⟨hv, hr⟩ := h
              subst hv hr
              obtain ⟨hl, hg1⟩ := he _ _ _ hp
              simp only [List.length_cons] at hl hg1
              refine ⟨by omega, fun g hg => ?_⟩
              obtain ⟨g1, rfl⟩ := unfoldGoal g hg
              rw [parseValue, hs]
              simp only [hb, show ¬ ('[' : Char) = '{' from by decide, if_false, if_true, hs2, hd]
              rw [hg1 g1 (by omega)]
      · simp only [hb, if_false] at h
        have hlen : r.length ≤ cs.length := by
          by_cases hq : c = '"'
          · simp only [hq, if_true] at h
            cases hp : parseString rest with
            | none => rw [hp] at h; simp at h
            | some p =>
              obtain ⟨s1, r1⟩ := p
              rw [hp] at h
              simp only [Option.some.injEq, Prod.mk.injEq] at h
              have := parseStringSkip_length rest 0 s1 r1 hp
              rw [← h.2]; omega
          · simp only [hq, if_false] at h
            split at h
            · cases hp : parseNumber (c :: rest) with
              | none => rw [hp] at h; simp at h
              | some p =>
                obtain ⟨n1, r1⟩ := p
                rw [hp] at h
                simp only [Option.some.injEq, Prod.mk.injEq] at h
                have := parseNumber_length _ _ _ hp
                simp only [List.length_cons] at this
                rw [← h.2]; omega
            · split at h
              · have := parseLiteral_length _ _ _ _ _ h
                simp only [List.length_cons] at this
                omega
              · split at h
                · have := parseLiteral_length _ _ _ _ _ h
                  simp only [List.length_cons] at this
                  omega
                · split at h
                  · have := parseLiteral_length _ _ _ _ _ h
                    simp only [List.length_cons] at this
                    omega
                  · simp at h
        refine ⟨hlen, fun g hg => ?_⟩
        obtain ⟨g1, rfl⟩ := unfoldGoal g hg
        rw [parseValue, hs]
        simp only [hc, if_false, hb]
        exact h


theorem fuelEnoughMembers_succ (f : Nat) (hv : FuelEnoughValue f) (hm : FuelEnoughMembers f) :
    FuelEnoughMembers (f + 1) := by
  intro cs ms r h
  rw [parseMembers] at h
  have hsp := skipSpace_length cs
  cases hs : skipSpace cs with
  | nil => rw [hs] at h; simp at h
  | cons c rest =>
    rw [hs] at h hsp
    simp only [List.length_cons] at h hsp
    by_cases hc : c = '"'
    · simp only [hc, if_true] at h
      cases hk : parseString rest with
      | none => rw [hk] at h; simp at h
      | some p =>
        obtain ⟨k, r0⟩ := p
        rw [hk] at h
        simp only at h
        have hkl := parseStringSkip_length rest 0 k r0 hk
        have hsp1 := skipSpace_length r0
        cases hs1 : skipSpace r0 with
        | nil => rw [hs1] at h; simp at h
        | cons e r1 =>
          rw [hs1] at h hsp1
          simp only [List.length_cons] at h hsp1
          by_cases hcolon : e = ':'
          · simp only [hcolon, if_true] at h
            cases hval : parseValue f r1 with
            | none => rw [hval] at h; simp at h
            | some p1 =>
              obtain ⟨v, r2⟩ := p1
              rw [hval] at h
              simp only at h
              obtain ⟨hvl, hvg⟩ := hv _ _ _ hval
              have hsp2 := skipSpace_length r2
              cases hs2 : skipSpace r2 with
              | nil => rw [hs2] at h; simp at h
              | cons x r3 =>
                rw [hs2] at h hsp2
                simp only [List.length_cons] at h hsp2
                by_cases hx : x = '}'
                · simp only [hx, if_true, Option.some.injEq, Prod.mk.injEq] at h
                  obtain ⟨hms, hr⟩ := h
                  subst hms hr
                  refine ⟨by omega, fun g hg => ?_⟩
                  obtain ⟨g1, rfl⟩ : ∃ g1, g = g1 + 1 := ⟨g - 1, by omega⟩
                  rw [parseMembers, hs]
                  simp only [hc, if_true, hk, hs1, hcolon]
                  rw [hvg g1 (by omega)]
                  simp only [hs2, hx, if_true]
                · simp only [hx, if_false] at h
                  by_cases hcomma : x = ','
                  · simp only [hcomma, if_true] at h
                    cases hrec : parseMembers f r3 with
                    | none => rw [hrec] at h; simp at h
                    | some p2 =>
                      obtain ⟨ms1, r4⟩ := p2
                      rw [hrec] at h
                      simp only [Option.some.injEq, Prod.mk.injEq] at h
                      obtain ⟨hms, hr⟩ := h
                      subst hms hr
                      obtain ⟨hml, hmg⟩ := hm _ _ _ hrec
                      refine ⟨by omega, fun g hg => ?_⟩
                      obtain ⟨g1, rfl⟩ : ∃ g1, g = g1 + 1 := ⟨g - 1, by omega⟩
                      rw [parseMembers, hs]
                      simp only [hc, if_true, hk, hs1, hcolon]
                      rw [hvg g1 (by omega)]
                      simp only [hs2, hcomma, show ¬ (',' : Char) = '}' from by decide, if_false,
                        if_true]
                      rw [hmg g1 (by omega)]
                  · simp only [hcomma, if_false] at h
                    simp at h
          · simp only [hcolon, if_false] at h
            simp at h
    · simp only [hc, if_false] at h
      simp at h

theorem fuelEnoughElements_succ (f : Nat) (hv : FuelEnoughValue f)
    (he : FuelEnoughElements f) : FuelEnoughElements (f + 1) := by
  intro cs xs r h
  rw [parseElements] at h
  cases hval : parseValue f cs with
  | none => rw [hval] at h; simp at h
  | some p1 =>
    obtain ⟨v, r0⟩ := p1
    rw [hval] at h
    simp only at h
    obtain ⟨hvl, hvg⟩ := hv _ _ _ hval
    have hsp := skipSpace_length r0
    cases hs : skipSpace r0 with
    | nil => rw [hs] at h; simp at h
    | cons x r1 =>
      rw [hs] at h hsp
      simp only [List.length_cons] at h hsp
      by_cases hx : x = ']'
      · simp only [hx, if_true, Option.some.injEq, Prod.mk.injEq] at h
        obtain ⟨hxs, hr⟩ := h
        subst hxs hr
        refine ⟨by omega, fun g hg => ?_⟩
        obtain ⟨g1, rfl⟩ : ∃ g1, g = g1 + 1 := ⟨g - 1, by omega⟩
        rw [parseElements, hvg g1 (by omega)]
        simp only [hs, hx, if_true]
      · simp only [hx, if_false] at h
        by_cases hcomma : x = ','
        · simp only [hcomma, if_true] at h
          cases hrec : parseElements f r1 with
          | none => rw [hrec] at h; simp at h
          | some p2 =>
            obtain ⟨xs1, r2⟩ := p2
            rw [hrec] at h
            simp only [Option.some.injEq, Prod.mk.injEq] at h
            obtain ⟨hxs, hr⟩ := h
            subst hxs hr
            obtain ⟨hel, heg⟩ := he _ _ _ hrec
            refine ⟨by omega, fun g hg => ?_⟩
            obtain ⟨g1, rfl⟩ : ∃ g1, g = g1 + 1 := ⟨g - 1, by omega⟩
            rw [parseElements, hvg g1 (by omega)]
            simp only [hs, hcomma, show ¬ (',' : Char) = ']' from by decide, if_false, if_true]
            rw [heg g1 (by omega)]
        · simp only [hcomma, if_false] at h
          simp at h

theorem fuelEnough (f : Nat) :
    FuelEnoughValue f ∧ FuelEnoughMembers f ∧ FuelEnoughElements f := by
  induction f with
  | zero =>
    refine ⟨?_, ?_, ?_⟩
    · intro cs v r h; simp [parseValue] at h
    · intro cs ms r h; simp [parseMembers] at h
    · intro cs xs r h; simp [parseElements] at h
  | succ f ih =>
    exact ⟨fuelEnoughValue_succ f ih.2.1 ih.2.2, fuelEnoughMembers_succ f ih.1 ih.2.1,
      fuelEnoughElements_succ f ih.1 ih.2.2⟩

/-- The bound on the recursion never decides the result of the scanner: a value
that is read with some bound is read by `parseJson`, whose bound is the length
of the input plus one. -/
theorem parseValue_fuel_enough (f : Nat) (data : Bytes) (v : Json) (r : Bytes)
    (h : parseValue f data = some (v, r)) :
    parseValue (data.length + 1) data = some (v, r) :=
  ((fuelEnough f).1 data v r h).2 _ (by omega)

/-! ## Lemmas on the JSON codec -/

theorem hex4_byte : ∀ n, n < 128 →
    hex4 '0' '0' (hexDigit (n / 16)) (hexDigit (n % 16)) = some n := by
  decide

theorem parseStringSkip_escapeChar (c : Char) (rest : Bytes) :
    parseStringSkip 0 (escapeChar c ++ rest) =
      match parseStringSkip 0 rest with
      | none => none
      | some (s, r) => some (c :: s, r) := by
  unfold escapeChar
  split_ifs with h1 h2 h3 h4 h5 h6 h7 h8
  · rcases h1 with h | h <;> subst h <;> simp [parseStringSkip, parseEscape, unescape]
  · subst h2; simp [parseStringSkip, parseEscape, unescape]
  · subst h3; simp [parseStringSkip, parseEscape, unescape]
  · subst h4; simp [parseStringSkip, parseEscape, unescape]
  · subst h5; simp [parseStringSkip, parseEscape, unescape]
  · subst h6; simp [parseStringSkip, parseEscape, unescape]
  · have hlt : c.toNat < 128 := by
      rcases h7 with h | h | h | h
      · omega
      · subst h; decide
      · subst h; decide
      · subst h; decide
    have hx := hex4_byte c.toNat hlt
    have hs : ¬ (0xD800 ≤ c.toNat ∧ c.toNat < 0xE000) := by omega
    simp [parseStringSkip, parseEscape, hx, hs, Char.ofNat_toNat]
  · have hx : hex4 '2' '0' '2' (hexDigit (c.toNat % 16)) = some c.toNat := by
      rcases h8 with h | h <;> subst h <;> decide
    have hs : ¬ (0xD800 ≤ c.toNat ∧ c.toNat < 0xE000) := by
      rcases h8 with h | h <;> subst h <;> decide
    simp [parseStringSkip, parseEscape, hx, hs, Char.ofNat_toNat]
  · have h1a : c ≠ '"' := fun h => h1 (Or.inr h)
    have h1b : c ≠ '\\' := fun h => h1 (Or.inl h)
    have h3a : ¬ c.toNat < 0x20 := fun h => h7 (Or.inl h)
    simp [parseStringSkip, h1a, h1b, h3a]

theorem parseString_escapeString (s rest : Bytes) :
    parseString (escapeString s ++ '"' :: rest) = some (s, rest) := by
  induction s with
  | nil => simp [parseString, escapeString, parseStringSkip]
  | cons c s ih =>
    simp only [parseString] at ih ⊢
    simp only [escapeString, List.append_assoc]
    rw [parseStringSkip_escapeChar, ih]

theorem parseValue_marshalBytes (m : ChatMessage) (fuel : Nat) (rest : Bytes) :
    parseValue (fuel + 4) (marshalBytes m ++ rest) =
      some (Json.obj (Members.cons "Sender".toList (Json.str m.Sender)
        (Members.cons "Message".toList (Json.str m.Message) Members.nil)), rest) := by
  have e1 := parseString_escapeString m.Sender
  have e2 := parseString_escapeString m.Message
  simp only [parseString] at e1 e2
  simp [marshalBytes, quote, parseValue, parseMembers, skipSpace, isSpace, parseString,
    parseStringSkip, e1, e2]

theorem parseJson_marshalBytes (m : ChatMessage) :
    parseJson (marshalBytes m) =
      some (Json.obj (Members.cons "Sender".toList (Json.str m.Sender)
        (Members.cons "Message".toList (Json.str m.Message) Members.nil))) := by
  have hlen : 3 ≤ (marshalBytes m).length := by
    simp [marshalBytes, quote]
  obtain ⟨k, hk⟩ : ∃ k, (marshalBytes m).length + 1 = k + 4 := ⟨(marshalBytes m).length - 3, by omega⟩
  have h := parseValue_marshalBytes m k []
  rw [List.append_nil] at h
  simp [parseJson, hk, h, skipSpace]

/-- Decoding what `json.Marshal` wrote for a `ChatMessage` gives the message
back. -/
theorem jsonUnmarshalChatMessage_marshalBytes (m : ChatMessage) :
    jsonUnmarshalChatMessage (marshalBytes m) = Except.ok m := by
  have h1 : lookupField ['S', 'e', 'n', 'd', 'e', 'r'] = some Field.sender := by decide
  have h2 : lookupField ['M', 'e', 's', 's', 'a', 'g', 'e'] = some Field.message := by decide
  simp [jsonUnmarshalChatMessage, parseJson_marshalBytes, fillChatMessage, h1, h2, storeField]

/-! ## Lemmas on `UUID.String` -/

theorem hexDigit_injective : ∀ a, a < 16 → ∀ b, b < 16 → hexDigit a = hexDigit b → a = b := by
  decide

theorem escapeChar_hexDigit : ∀ n, n < 16 → escapeChar (hexDigit n) = [hexDigit n] := by
  decide

theorem escapeString_append (s t : Bytes) :
    escapeString (s ++ t) = escapeString s ++ escapeString t := by
  induction s with
  | nil => rfl
  | cons c s ih => simp [escapeString, ih]

theorem escapeString_hexEncode (vs : List (Fin 256)) :
    escapeString (hexEncode vs) = hexEncode vs := by
  induction vs with
  | nil => rfl
  | cons v vs ih =>
    have h1 : v.val / 16 < 16 := by omega
    have h2 : v.val % 16 < 16 := by omega
    simp [hexEncode, escapeString, escapeChar_hexDigit _ h1, escapeChar_hexDigit _ h2, ih]

/-- The text of a UUID needs no escaping in a JSON string. -/
theorem escapeString_uuid (u : UUID) : escapeString u.String = u.String := by
  have hd : escapeChar '-' = ['-'] := by decide
  simp [UUID.String, escapeString_append, escapeString, escapeString_hexEncode, hd]

theorem hexEncode_length (vs : List (Fin 256)) : (hexEncode vs).length = 2 * vs.length := by
  induction vs with
  | nil => rfl
  | cons v vs ih => simp [hexEncode, ih]; omega

theorem hexEncode_injective (xs ys : List (Fin 256)) (h : hexEncode xs = hexEncode ys) :
    xs = ys := by
  induction xs generalizing ys with
  | nil =>
    cases ys with
    | nil => rfl
    | cons y ys => simp [hexEncode] at h
  | cons x xs ih =>
    cases ys with
    | nil => simp [hexEncode] at h
    | cons y ys =>
      simp only [hexEncode, List.cons.injEq] at h
      obtain ⟨h1, h2, h3⟩ := h
      have e1 := hexDigit_injective _ (by omega) _ (by omega) h1
      have e2 := hexDigit_injective _ (by omega) _ (by omega) h2
      have hxy : x = y := Fin.ext (by omega)
      rw [hxy, ih ys h3]

theorem split_uuid_bytes (l : List (Fin 256)) :
    l = l.take 4 ++ ((l.drop 4).take 2 ++ ((l.drop 6).take 2 ++
      ((l.drop 8).take 2 ++ l.drop 10))) := by
  have h1 : (l.drop 8).take 2 ++ l.drop 10 = l.drop 8 := by
    have : l.drop 10 = (l.drop 8).drop 2 := by simp [List.drop_drop]
    rw [this, List.take_append_drop]
  have h2 : (l.drop 6).take 2 ++ l.drop 8 = l.drop 6 := by
    have : l.drop 8 = (l.drop 6).drop 2 := by simp [List.drop_drop]
    rw [this, List.take_append_drop]
  have h3 : (l.drop 4).take 2 ++ l.drop 6 = l.drop 4 := by
    have : l.drop 6 = (l.drop 4).drop 2 := by simp [List.drop_drop]
    rw [this, List.take_append_drop]
  rw [h1, h2, h3, List.take_append_drop]

/-- Go's `UUID.String` is injective: distinct identities have distinct texts. -/
theorem uuid_String_injective (u v : UUID) (h : u.String = v.String) : u = v := by
  obtain ⟨a, ha⟩ := u
  obtain ⟨b, hb⟩ := v
  simp only [UUID.String, List.append_assoc, List.cons_append] at h
  have l1 : (hexEncode (a.take 4)).length = (hexEncode (b.take 4)).length := by
    simp [hexEncode_length, ha, hb]
  obtain ⟨p1, h⟩ := List.append_inj h l1
  simp only [List.cons.injEq, true_and] at h
  have l2 : (hexEncode ((a.drop 4).take 2)).length = (hexEncode ((b.drop 4).take 2)).length := by
    simp [hexEncode_length, ha, hb]
  obtain ⟨p2, h⟩ := List.append_inj h l2
  simp only [List.cons.injEq, true_and] at h
  have l3 : (hexEncode ((a.drop 6).take 2)).length = (hexEncode ((b.drop 6).take 2)).length := by
    simp [hexEncode_length, ha, hb]
  obtain ⟨p3, h⟩ := List.append_inj h l3
  simp only [List.cons.injEq, true_and] at h
  have l4 : (hexEncode ((a.drop 8).take 2)).length = (hexEncode ((b.drop 8).take 2)).length := by
    simp [hexEncode_length, ha, hb]
  obtain ⟨p4, h⟩ := List.append_inj h l4
  simp only [List.cons.injEq, true_and] at h
  have q1 := hexEncode_injective _ _ p1
  have q2 := hexEncode_injective _ _ p2
  have q3 := hexEncode_injective _ _ p3
  have q4 := hexEncode_injective _ _ p4
  have q5 := hexEncode_injective _ _ h
  have hab : a = b := by
    rw [split_uuid_bytes a, split_uuid_bytes b, q1, q2, q3, q4, q5]
  subst hab
  rfl

theorem parseJson_chatinputFrame (s : Bytes) :
    parseJson (chatinputFrame s) =
      some (Json.obj (Members.cons chatinput (Json.str s) Members.nil)) := by
  have hlen : 3 ≤ (chatinputFrame s).length := by
    simp [chatinputFrame, quote]
  obtain ⟨k, hk⟩ : ∃ k, (chatinputFrame s).length + 1 = k + 4 :=
    ⟨(chatinputFrame s).length - 3, by omega⟩
  have e1 := parseString_escapeString s
  simp only [parseString] at e1
  have h : parseValue (k + 4) (chatinputFrame s) =
      some (Json.obj (Members.cons chatinput (Json.str s) Members.nil), []) := by
    simp [chatinputFrame, chatinput, quote, parseValue, parseMembers, skipSpace, isSpace,
      parseString, parseStringSkip, e1]
  simp [parseJson, hk, h, skipSpace]

theorem parseJson_lt (xs : Bytes) : parseJson ('<' :: xs) = none := by
  simp [parseJson, parseValue, skipSpace, isSpace]

theorem parseJson_nil : parseJson [] = none := by
  simp [parseJson, parseValue, skipSpace]

/-! ## Lemmas on the pumps -/

theorem render_nil_or_lt (c : Client) (m : ChatMessage) :
    render c m = [] ∨ ∃ xs, render c m = '<' :: xs := by
  have h1 : selfPrefix = '<' :: selfPrefix.tail := rfl
  have h2 : typingFragment = '<' :: typingFragment.tail := rfl
  have h3 : peerPrefix = '<' :: peerPrefix.tail := rfl
  unfold render
  split_ifs
  · exact Or.inl rfl
  · exact Or.inr ⟨_, by rw [h1]; rfl⟩
  · exact Or.inr ⟨_, h2⟩
  · exact Or.inr ⟨_, by rw [h3]; rfl⟩

/-- What `writePump` writes for the first message of a frame is never a JSON
object. -/
theorem render_not_json (c : Client) (m : ChatMessage) : isJsonObject (render c m) = false := by
  rcases render_nil_or_lt c m with h | ⟨xs, h⟩
  · simp [isJsonObject, h, parseJson_nil]
  · simp [isJsonObject, h, parseJson_lt]

theorem drain_length (queue : List Bytes) :
    drain queue.length queue =
      (queue.flatMap (fun m => [Effect.write newline, Effect.write m]), []) := by
  induction queue with
  | nil => rfl
  | cons m rest ih => simp [drain, ih]

theorem writesOf_append (xs ys : List Effect) :
    writesOf (xs ++ ys) = writesOf xs ++ writesOf ys := by
  induction xs with
  | nil => rfl
  | cons e xs ih => cases e <;> simp [writesOf, ih]

theorem writesOf_drained (queue : List Bytes) :
    writesOf (queue.flatMap (fun m => [Effect.write newline, Effect.write m]))
      = queue.flatMap (fun m => [newline, m]) := by
  induction queue with
  | nil => rfl
  | cons m rest ih =>
    show writesOf ([Effect.write newline, Effect.write m]
        ++ rest.flatMap (fun m => [Effect.write newline, Effect.write m]))
      = [newline, m] ++ rest.flatMap (fun m => [newline, m])
    rw [writesOf_append, ih]
    rfl

/-- The receive case of `writePump` on a first message that decodes. -/
theorem writePumpRecv_decoded (c : Client) (message : Bytes) (rest : List Bytes)
    (closed closeErr : Bool) (newMessage : ChatMessage)
    (h : jsonUnmarshalChatMessage message = Except.ok newMessage) :
    (writePumpRecv c ⟨message :: rest, closed⟩ false closeErr).1.effects =
      [Effect.setWriteDeadline writeWait, Effect.nextWriter TextMessage,
        Effect.println (printStruct newMessage), Effect.println (render c newMessage),
        Effect.write (render c newMessage)]
        ++ rest.flatMap (fun m => [Effect.write newline, Effect.write m])
        ++ [Effect.writerClose] ∧
    (writePumpRecv c ⟨message :: rest, closed⟩ false closeErr).1.isStop = closeErr ∧
    (writePumpRecv c ⟨message :: rest, closed⟩ false closeErr).2 = ⟨[], closed⟩ := by
  simp only [writePumpRecv, h, drain_length]
  cases closeErr <;> simp [Iter.effects, Iter.isStop]

theorem writesOf_writePumpRecv (c : Client) (message : Bytes) (rest : List Bytes)
    (closed closeErr : Bool) (newMessage : ChatMessage)
    (h : jsonUnmarshalChatMessage message = Except.ok newMessage) :
    writesOf (writePumpRecv c ⟨message :: rest, closed⟩ false closeErr).1.effects =
      render c newMessage :: rest.flatMap (fun m => [newline, m]) := by
  rw [(writePumpRecv_decoded c message rest closed closeErr newMessage h).1]
  simp [writesOf_append, writesOf, writesOf_drained]

theorem flatten_drained (queue : List Bytes) :
    (queue.flatMap (fun m => [newline, m])).flatten
      = (queue.map (fun m => newline ++ m)).flatten := by
  induction queue with
  | nil => rfl
  | cons m rest ih => simp [ih]

theorem readPumpIterWith_no_teardown (unmarshal : Bytes → Except JsonError Members)
    (marshal : ChatMessage → Except JsonError Bytes) (c : Client) (r : ReadResult) :
    (readPumpIterWith unmarshal marshal c r).effects.all (fun e => !e.isTeardown) = true := by
  cases r with
  | error b => cases b <;> simp [readPumpIterWith, Iter.effects, Effect.isTeardown]
  | message data =>
    simp only [readPumpIterWith]
    split
    · simp [Iter.effects]
    · split
      · split <;> simp [Iter.effects, Effect.isTeardown]
      · simp [Iter.effects]

theorem readPumpLoopWith_no_teardown (unmarshal : Bytes → Except JsonError Members)
    (marshal : ChatMessage → Except JsonError Bytes) (c : Client) (evs : List ReadEvent) :
    (readPumpLoopWith unmarshal marshal c evs).1.all (fun e => !e.isTeardown) = true := by
  induction evs with
  | nil => simp [readPumpLoopWith]
  | cons ev evs ih =>
    cases ev with
    | pong =>
      simp only [readPumpLoopWith]
      simpa [Effect.isTeardown] using ih
    | read r =>
      have hr := readPumpIterWith_no_teardown unmarshal marshal c r
      simp only [readPumpLoopWith]
      cases hi : readPumpIterWith unmarshal marshal c r with
      | next effects =>
        rw [hi] at hr
        simp only [Iter.effects] at hr
        simp only [List.all_append, hr, ih, Bool.and_self]
      | stop effects =>
        rw [hi] at hr
        simpa [Iter.effects] using hr

theorem readPumpLoopWith_left (unmarshal : Bytes → Except JsonError Members)
    (marshal : ChatMessage → Except JsonError Bytes) (c : Client) (evs : List ReadEvent) :
    (readPumpLoopWith unmarshal marshal c evs).2 =
      evs.any (fun ev =>
        match ev with
        | ReadEvent.pong => false
        | ReadEvent.read r => (readPumpIterWith unmarshal marshal c r).isStop) := by
  induction evs with
  | nil => simp [readPumpLoopWith]
  | cons ev evs ih =>
    cases ev with
    | pong => simpa [readPumpLoopWith] using ih
    | read r =>
      simp only [readPumpLoopWith, List.any_cons]
      cases hi : readPumpIterWith unmarshal marshal c r with
      | next effects => simpa [Iter.isStop] using ih
      | stop effects => simp [Iter.isStop]

/-! ## Theorems -/

/-- C7. The heartbeat constants: `0 < pingPeriod < pongWait`, `pingPeriod` is
exactly nine tenths of `pongWait` (the division leaves no remainder and the
product fits an `int64`), that is 54 s against 60 s, and `writeWait` is 10 s,
`maxMessageSize` is 512. -/
theorem heartbeat_margin :
    0 < pingPeriod ∧ pingPeriod < pongWait ∧
    pingPeriod = Int.tdiv (pongWait * 9) 10 ∧
    pingPeriod = 54 * second ∧ pongWait = 60 * second ∧
    pingPeriod = 54000000000 ∧ pongWait = 60000000000 ∧
    Int.tmod (pongWait * 9) 10 = 0 ∧ pingPeriod * 10 = pongWait * 9 ∧
    pongWait * 9 < 2 ^ 63 ∧
    writeWait = 10 * second ∧ writeWait = 10000000000 ∧ maxMessageSize = 512 := by
  decide

/-- C5 (counterexample). When the upgrade succeeds and `uuid.NewUUID` returns an
error, `serveWs` does not return: the call ends with the exit of the process. -/
theorem serveWs_newUUID_error_does_not_return :
    (serveWs false none).2 ≠ Outcome.returned ∧
    (serveWs false none).2 = Outcome.processExit 1 := by
  decide

/-- C5 (amended). When the upgrade succeeds and `uuid.NewUUID` returns an error,
`serveWs` submits no Register and starts no pump (its only effect is the log
line) and the process exits with status 1, as `log.Fatal` does. The other two
paths return: a failed upgrade after its log line, and, for every identity, a
successful accept after the Register and the start of both pumps. -/
theorem serveWs_newUUID_error_exits :
    serveWs false none = ([Effect.logPrint], Outcome.processExit 1) ∧
    (serveWs false none).1.all (fun e =>
      match e with
      | Effect.register _ => false
      | Effect.goWritePump _ => false
      | Effect.goReadPump _ => false
      | _ => true) = true ∧
    serveWs true none = ([Effect.logPrint], Outcome.returned) ∧
    (∀ id : UUID, serveWs true (some id) = ([Effect.logPrint], Outcome.returned)) ∧
    (∀ id : UUID, serveWs false (some id) =
      ([Effect.register ⟨id⟩, Effect.goWritePump ⟨id⟩, Effect.goReadPump ⟨id⟩],
        Outcome.returned)) := by
  refine ⟨by decide, by decide, by decide, fun id => rfl, fun id => rfl⟩

/-- C6. The teardown of `readPump`, for every JSON codec (so also one whose
`Marshal` fails): the effects of a run are a part that holds neither an
Unregister nor a close of the connection, followed, exactly when the loop was
left, by `Unregister(c)` and then the close. The loop is left exactly when some
iteration stops it; an iteration on a read error stops it, and so does one in
which `Marshal` fails. -/
theorem readPump_teardown (unmarshal : Bytes → Except JsonError Members)
    (marshal : ChatMessage → Except JsonError Bytes) (c : Client) (evs : List ReadEvent) :
    (∃ pre, pre.all (fun e => !e.isTeardown) = true ∧
      (readPumpWith unmarshal marshal c evs).1 =
        pre ++ (if (readPumpWith unmarshal marshal c evs).2
          then [Effect.unregister c, Effect.connClose] else [])) ∧
    (readPumpWith unmarshal marshal c evs).2 =
      evs.any (fun ev =>
        match ev with
        | ReadEvent.pong => false
        | ReadEvent.read r => (readPumpIterWith unmarshal marshal c r).isStop) ∧
    (readPumpIterWith unmarshal marshal c (ReadResult.error true)).isStop = true ∧
    (readPumpIterWith unmarshal marshal c (ReadResult.error false)).isStop = true ∧
    readPumpIterWith jsonUnmarshalMap (fun _ => Except.error JsonError.unmarshalTypeError) c
      (ReadResult.message frameHi) = Iter.stop [Effect.logPrint] := by
  refine ⟨⟨[Effect.setReadLimit maxMessageSize, Effect.setReadDeadline pongWait,
      Effect.setPongHandler] ++ (readPumpLoopWith unmarshal marshal c evs).1, ?_, ?_⟩,
    ?_, ?_, ?_, ?_⟩
  · have h := readPumpLoopWith_no_teardown unmarshal marshal c evs
    simp only [List.all_append, h, Bool.and_true]
    simp [Effect.isTeardown]
  · simp [readPumpWith]
  · simpa [readPumpWith] using readPumpLoopWith_left unmarshal marshal c evs
  · simp [readPumpIterWith, Iter.isStop]
  · simp [readPumpIterWith, Iter.isStop]
  · have h : jsonUnmarshalMap frameHi
        = Except.ok (Members.cons chatinput (Json.str "hi".toList) Members.nil) := by decide
    simp only [readPumpIterWith, h]
    have h2 : (Members.cons chatinput (Json.str "hi".toList) Members.nil).lookup chatinput
        = some (Json.str "hi".toList) := by decide
    simp only [h2]

/-- C1. Parse-or-drop: a frame that is not a JSON object in which `chatinput` is
bound to a string makes the loop body of `readPump` do nothing (no broadcast,
no Unregister, no close) and go on to the next read, so the run continues as if
the frame had not arrived. -/
theorem readPump_drops_nonconforming (c : Client) (frame : Bytes)
    (h : chatinputOf frame = none) :
    readPumpIter c (ReadResult.message frame) = Iter.next [] ∧
    ∀ evs, readPumpLoop c (ReadEvent.read (ReadResult.message frame) :: evs)
      = readPumpLoop c evs := by
  have key : readPumpIter c (ReadResult.message frame) = Iter.next [] := by
    unfold chatinputOf at h
    simp only [readPumpIter, readPumpIterWith, jsonUnmarshalMap]
    cases hp : parseJson frame with
    | none => rfl
    | some v =>
      rw [hp] at h
      cases v with
      | null => rfl
      | bool b => rfl
      | num n => rfl
      | str s => rfl
      | arr xs => rfl
      | obj ms =>
        simp only at h ⊢
        cases hn : ms.numbersInRange with
        | false => rfl
        | true =>
          simp only [if_true]
          cases hl : ms.lookup chatinput with
          | none => rfl
          | some w =>
            rw [hl] at h
            cases w with
            | str s => simp at h
            | null => rfl
            | bool b => rfl
            | num n => rfl
            | arr xs => rfl
            | obj ms1 => rfl
  refine ⟨key, fun evs => ?_⟩
  have key1 : readPumpIterWith jsonUnmarshalMap jsonMarshal c (ReadResult.message frame)
      = Iter.next [] := key
  simp [readPumpLoop, readPumpLoopWith, key1]

/-- C1 at the frames the specification names: `{"foo":"bar"}`, `{"chatinput":5}`,
`null`, `[1]` and text that is not JSON. -/
theorem readPump_drops_nonconforming_witness :
    (chatinputOf "\x7b\"foo\":\"bar\"\x7d".toList = none ∧
      readPumpIter clientA (ReadResult.message "\x7b\"foo\":\"bar\"\x7d".toList) = Iter.next []) ∧
    (chatinputOf "\x7b\"chatinput\":5\x7d".toList = none ∧
      readPumpIter clientA (ReadResult.message "\x7b\"chatinput\":5\x7d".toList) = Iter.next []) ∧
    (chatinputOf "null".toList = none ∧
      readPumpIter clientA (ReadResult.message "null".toList) = Iter.next []) ∧
    (chatinputOf "[1]".toList = none ∧
      readPumpIter clientA (ReadResult.message "[1]".toList) = Iter.next []) ∧
    (chatinputOf "hello".toList = none ∧
      readPumpIter clientA (ReadResult.message "hello".toList) = Iter.next []) :=
  ⟨⟨by decide, (readPump_drops_nonconforming clientA _ (by decide)).1⟩,
   ⟨by decide, (readPump_drops_nonconforming clientA _ (by decide)).1⟩,
   ⟨by decide, (readPump_drops_nonconforming clientA _ (by decide)).1⟩,
   ⟨by decide, (readPump_drops_nonconforming clientA _ (by decide)).1⟩,
   ⟨by decide, (readPump_drops_nonconforming clientA _ (by decide)).1⟩⟩

theorem readPumpIter_accepts (c : Client) (frame s : Bytes)
    (h : chatinputOf frame = some s) (hn : numbersFit frame = true) :
    readPumpIter c (ReadResult.message frame)
      = Iter.next [Effect.broadcast (marshalBytes ⟨c.id.String, s⟩)] := by
  unfold chatinputOf at h
  unfold numbersFit at hn
  simp only [readPumpIter, readPumpIterWith, jsonUnmarshalMap]
  cases hp : parseJson frame with
  | none => rw [hp] at h; simp at h
  | some v =>
    rw [hp] at h hn
    cases v with
    | null => simp at h
    | bool b => simp at h
    | num n => simp at h
    | str s => simp at h
    | arr xs => simp at h
    | obj ms =>
      simp only [Json.numbersInRange] at hn
      simp only [hn, if_true] at h ⊢
      cases hl : ms.lookup chatinput with
      | none => rw [hl] at h; simp at h
      | some w =>
        rw [hl] at h
        cases w with
        | str t =>
          simp only [Option.some.injEq] at h
          subst h
          rfl
        | null => simp at h
        | bool b => simp at h
        | num n => simp at h
        | arr xs => simp at h
        | obj ms1 => simp at h

/-- A frame that is a JSON object holding, at any depth, a number outside the
`float64` range is dropped, whatever it binds `chatinput` to. -/
theorem readPumpIter_drops_overflow (c : Client) (frame : Bytes)
    (h : isJsonObject frame = true) (hn : numbersFit frame = false) :
    readPumpIter c (ReadResult.message frame) = Iter.next [] := by
  unfold isJsonObject at h
  unfold numbersFit at hn
  simp only [readPumpIter, readPumpIterWith, jsonUnmarshalMap]
  cases hp : parseJson frame with
  | none => simp [hp] at h
  | some v =>
    rw [hp] at h hn
    cases v with
    | null => simp at h
    | bool b => simp at h
    | num n => simp at h
    | str s => simp at h
    | arr xs => simp at h
    | obj ms =>
      simp only [Json.numbersInRange] at hn
      simp only [hn]
      rfl

set_option exponentiation.threshold 2000 in
set_option maxRecDepth 8000 in
/-- C2 (counterexample). The frame `{"chatinput":"hi","n":1e999}` is a JSON
object in which `chatinput` is bound to the string `hi`, and `readPump` submits
nothing for it: `json.Unmarshal` returns a range error for `1e999` and the frame
is dropped. -/
theorem readPump_drops_overflowing_number :
    isJsonObject frameOverflow = true ∧
    chatinputOf frameOverflow = some "hi".toList ∧
    readPumpIter clientA (ReadResult.message frameOverflow) = Iter.next [] := by
  decide

/-- C2 (amended). For a frame that is a JSON object with `chatinput` bound to a
string `s` and with no number outside the `float64` range, the loop body of
`readPump` submits exactly one message, the JSON encoding of
`ChatMessage{Sender: c.id.String(), Message: s}`, which is
`{"Sender":"<c.id>","Message":<s quoted>}`; two such frames with the same `s`
give the same submission whatever else they hold; for `{"chatinput":"hi"}` the
bytes are `{"Sender":"<c.id>","Message":"hi"}`. -/
theorem readPump_server_assigned_sender (c : Client) (frame s : Bytes)
    (h : chatinputOf frame = some s) (hn : numbersFit frame = true) :
    readPumpIter c (ReadResult.message frame)
      = Iter.next [Effect.broadcast (marshalBytes ⟨c.id.String, s⟩)] ∧
    marshalBytes ⟨c.id.String, s⟩
      = "\x7b\"Sender\":\"".toList ++ c.id.String ++ "\",\"Message\":".toList ++ quote s
          ++ "\x7d".toList ∧
    (∀ frame1, chatinputOf frame1 = some s → numbersFit frame1 = true →
      readPumpIter c (ReadResult.message frame1) = readPumpIter c (ReadResult.message frame)) ∧
    readPumpIter c (ReadResult.message frameHi)
      = Iter.next [Effect.broadcast
          ("\x7b\"Sender\":\"".toList ++ c.id.String ++ "\",\"Message\":\"hi\"\x7d".toList)] := by
  refine ⟨readPumpIter_accepts c frame s h hn, ?_, ?_, ?_⟩
  · simp [marshalBytes, quote, escapeString_uuid]
  · intro frame1 h1 hn1
    rw [readPumpIter_accepts c frame1 s h1 hn1, readPumpIter_accepts c frame s h hn]
  · have e1 : chatinputOf frameHi = some "hi".toList := by decide
    have e2 : numbersFit frameHi = true := by decide
    rw [readPumpIter_accepts c frameHi _ e1 e2]
    have e3 : escapeString ['h', 'i'] = ['h', 'i'] := by decide
    simp [marshalBytes, quote, escapeString_uuid, e3]

/-- C2 at the frame `{"chatinput":"hi","Sender":"mallory"}` for client B: the
submitted sender is B's identity and the result is that of `{"chatinput":"hi"}`. -/
theorem readPump_server_assigned_sender_witness :
    chatinputOf frameSpoof = some "hi".toList ∧ numbersFit frameSpoof = true ∧
    readPumpIter clientB (ReadResult.message frameSpoof)
      = Iter.next [Effect.broadcast (marshalBytes ⟨clientB.id.String, "hi".toList⟩)] ∧
    readPumpIter clientB (ReadResult.message frameHi)
      = readPumpIter clientB (ReadResult.message frameSpoof) :=
  ⟨by decide, by decide,
    (readPump_server_assigned_sender clientB frameSpoof "hi".toList (by decide) (by decide)).1,
    (readPump_server_assigned_sender clientB frameSpoof "hi".toList (by decide) (by decide)).2.2.1
      frameHi (by decide) (by decide)⟩

set_option maxRecDepth 20000 in
/-- C3 (counterexample). Client A sent `hi`. The frame that B's `writePump`
writes for the broadcast message is markup labelled with B's own identity, and
the frame that A's `writePump` writes is markup labelled `You`; neither is the
JSON object `{"Sender":"<A-id>","Message":"hi"}`, nor any JSON object. -/
theorem writePump_frame_is_markup :
    frameOf (writePumpRecv clientB ⟨[marshalBytes ⟨clientA.id.String, "hi".toList⟩], false⟩
        false false).1.effects
      = "<div id=\"chatloading\" hx-swap-oob=\"beforebegin\"><p><strong>11111111-1111-1111-1111-111111111111</strong>: hi</p><div hx-get=\"/scroll\" hx-target=\"#chat_room\" hx-swap=\"beforebegin scroll:#chat_room:bottom\" hx-trigger=\"load\"></div></div><input id=\"chatinput\" name=\"chatinput\" autocomplete=\"off\" autofocus hx-select-oob=\"#chatinput\" hx-swap=\"none scroll:#chat_room:bottom\"><div id=\"chatloading\" class=\"htmx-indicator\" hx-swap-oob=\"outerHTML\"><p>Someone is typing...</p></div>".toList ∧
    frameOf (writePumpRecv clientA ⟨[marshalBytes ⟨clientA.id.String, "hi".toList⟩], false⟩
        false false).1.effects
      = "<div id=\"chatloading\" hx-swap-oob=\"beforebegin\"><p><strong>You</strong>: hi</p><div hx-get=\"/scroll\" hx-target=\"#chat_room\" hx-swap=\"beforebegin scroll:#chat_room:bottom\" hx-trigger=\"load\"></div></div><input id=\"chatinput\" name=\"chatinput\" autocomplete=\"off\" autofocus hx-select-oob=\"#chatinput\" hx-swap=\"none scroll:#chat_room:bottom\"><div id=\"chatloading\" class=\"htmx-indicator\" hx-swap-oob=\"outerHTML\"><p>Someone is typing...</p></div>".toList ∧
    marshalBytes ⟨clientA.id.String, "hi".toList⟩
      = "\x7b\"Sender\":\"00000000-0000-0000-0000-000000000000\",\"Message\":\"hi\"\x7d".toList ∧
    frameOf (writePumpRecv clientB ⟨[marshalBytes ⟨clientA.id.String, "hi".toList⟩], false⟩
        false false).1.effects ≠ marshalBytes ⟨clientA.id.String, "hi".toList⟩ ∧
    frameOf (writePumpRecv clientA ⟨[marshalBytes ⟨clientA.id.String, "hi".toList⟩], false⟩
        false false).1.effects ≠ marshalBytes ⟨clientA.id.String, "hi".toList⟩ ∧
    isJsonObject (frameOf (writePumpRecv clientB
      ⟨[marshalBytes ⟨clientA.id.String, "hi".toList⟩], false⟩ false false).1.effects) = false ∧
    isJsonObject (frameOf (writePumpRecv clientA
      ⟨[marshalBytes ⟨clientA.id.String, "hi".toList⟩], false⟩ false false).1.effects) = false := by
  have hB := writesOf_writePumpRecv clientB _ [] false false _
    (jsonUnmarshalChatMessage_marshalBytes ⟨clientA.id.String, "hi".toList⟩)
  have hA := writesOf_writePumpRecv clientA _ [] false false _
    (jsonUnmarshalChatMessage_marshalBytes ⟨clientA.id.String, "hi".toList⟩)
  have fB : frameOf (writePumpRecv clientB
      ⟨[marshalBytes ⟨clientA.id.String, "hi".toList⟩], false⟩ false false).1.effects
      = render clientB ⟨clientA.id.String, "hi".toList⟩ := by
    rw [frameOf, hB]
    simp
  have fA : frameOf (writePumpRecv clientA
      ⟨[marshalBytes ⟨clientA.id.String, "hi".toList⟩], false⟩ false false).1.effects
      = render clientA ⟨clientA.id.String, "hi".toList⟩ := by
    rw [frameOf, hA]
    simp
  rw [fB, fA]
  refine ⟨by decide, by decide, by decide, by decide, by decide, render_not_json _ _,
    render_not_json _ _⟩

/-- C3 (amended). For every client `c` and every message that is the JSON
encoding of `ChatMessage{Sender: a, Message: b}` taken from `c.send` as the
first message of a frame, `writePump` decodes exactly `a` and `b` and the part
it writes for the message is a markup fragment, not a JSON object. For a body
other than `{{typing}}` the fragment holds `b` verbatim before the fixed closing
markup: after the fixed opening labelled `You` when `a` is `c`'s identity text,
and otherwise after the fixed opening that ends in `<strong>`, a label, and
`</strong>: `. For the body `{{typing}}` the fragment is empty when `a` is `c`'s
identity text and the fixed typing fragment otherwise. Which label a peer
message carries is left open. -/
theorem writePump_renders_markup (c : Client) (a b : Bytes) (rest : List Bytes)
    (closed closeErr : Bool) :
    jsonUnmarshalChatMessage (marshalBytes ⟨a, b⟩) = Except.ok ⟨a, b⟩ ∧
    ∃ label part,
      (writesOf (writePumpRecv c ⟨marshalBytes ⟨a, b⟩ :: rest, closed⟩ false
        closeErr).1.effects).head? = some part ∧
      isJsonObject part = false ∧
      part = (if a = c.id.String then
          (if b = typing then [] else selfPrefix ++ b ++ messageSuffix)
        else
          (if b = typing then typingFragment
            else peerPrefix ++ label ++ peerInfix ++ b ++ messageSuffix)) := by
  have hd := jsonUnmarshalChatMessage_marshalBytes ⟨a, b⟩
  have hw := writesOf_writePumpRecv c _ rest closed closeErr _ hd
  refine ⟨hd, c.id.String, render c ⟨a, b⟩, ?_, render_not_json c ⟨a, b⟩, rfl⟩
  rw [hw]
  rfl

/-- C4. Self-echo round trip: the loop body of `c`'s `readPump` turns the frame
`{"chatinput": s}` into one broadcast message; `json.Unmarshal` in `writePump`
decodes that message without error to `Sender = c.id.String()` and
`Message = s`; the decoded sender equals `c`'s identity text, so `c`'s own
`writePump` writes the `Sender == self` fragment (empty for `{{typing}}`, the
`You` fragment otherwise), and for a client `c1` with another identity it
differs from `c1`'s identity text, so `c1`'s `writePump` writes the
`Sender != self` fragment. -/
theorem self_echo_round_trip (c c1 : Client) (s : Bytes) (rest : List Bytes)
    (closed closeErr : Bool) :
    readPumpIter c (ReadResult.message (chatinputFrame s))
      = Iter.next [Effect.broadcast (marshalBytes ⟨c.id.String, s⟩)] ∧
    jsonUnmarshalChatMessage (marshalBytes ⟨c.id.String, s⟩) = Except.ok ⟨c.id.String, s⟩ ∧
    (writesOf (writePumpRecv c ⟨marshalBytes ⟨c.id.String, s⟩ :: rest, closed⟩ false
        closeErr).1.effects).head?
      = some (if s = typing then [] else selfPrefix ++ s ++ messageSuffix) ∧
    (c1.id ≠ c.id →
      c.id.String ≠ c1.id.String ∧
      (writesOf (writePumpRecv c1 ⟨marshalBytes ⟨c.id.String, s⟩ :: rest, closed⟩ false
          closeErr).1.effects).head?
        = some (if s = typing then typingFragment
            else peerPrefix ++ c1.id.String ++ peerInfix ++ s ++ messageSuffix)) := by
  have hd := jsonUnmarshalChatMessage_marshalBytes ⟨c.id.String, s⟩
  refine ⟨?_, hd, ?_, ?_⟩
  · apply readPumpIter_accepts
    · simp only [chatinputOf, parseJson_chatinputFrame]
      have : (Members.cons chatinput (Json.str s) Members.nil).lookup chatinput
          = some (Json.str s) := by
        simp [Members.lookup]
      rw [this]
    · simp [numbersFit, parseJson_chatinputFrame, Json.numbersInRange, Members.numbersInRange]
  · rw [writesOf_writePumpRecv c _ rest closed closeErr _ hd]
    simp [render]
  · intro hne
    have hs : c.id.String ≠ c1.id.String := fun h => hne (uuid_String_injective _ _ h).symm
    refine ⟨hs, ?_⟩
    rw [writesOf_writePumpRecv c1 _ rest closed closeErr _ hd]
    simp [render, hs]

/-- C4 at clients A and B and the body `hi`: B's `writePump` writes the peer
fragment for A's message. -/
theorem self_echo_round_trip_witness :
    clientB.id ≠ clientA.id ∧
    (writesOf (writePumpRecv clientB ⟨[marshalBytes ⟨clientA.id.String, "hi".toList⟩], false⟩
        false false).1.effects).head?
      = some (if "hi".toList = typing then typingFragment
          else peerPrefix ++ clientB.id.String ++ peerInfix ++ "hi".toList ++ messageSuffix) :=
  ⟨by decide,
    ((self_echo_round_trip clientA clientB "hi".toList [] false false).2.2.2 (by decide)).2⟩

set_option maxRecDepth 100000 in
/-- C8 (counterexample). B's `writePump` takes A's message `hi` from the mailbox
while A's message `yo` is queued behind it (k = 1). A consumer that splits the
frame on newline gets two parts; the second is the queued JSON object, the first
is markup and not a JSON object. -/
theorem writePump_first_part_not_json :
    splitOnNewline (frameOf (writePumpRecv clientB
        ⟨[marshalBytes ⟨clientA.id.String, "hi".toList⟩,
          marshalBytes ⟨clientA.id.String, "yo".toList⟩], false⟩ false false).1.effects)
      = [peerPrefix ++ clientB.id.String ++ peerInfix ++ "hi".toList ++ messageSuffix,
          marshalBytes ⟨clientA.id.String, "yo".toList⟩] ∧
    isJsonObject (peerPrefix ++ clientB.id.String ++ peerInfix ++ "hi".toList ++ messageSuffix)
      = false ∧
    isJsonObject (marshalBytes ⟨clientA.id.String, "yo".toList⟩) = true ∧
    (splitOnNewline (frameOf (writePumpRecv clientB
        ⟨[marshalBytes ⟨clientA.id.String, "hi".toList⟩,
          marshalBytes ⟨clientA.id.String, "yo".toList⟩], false⟩ false false).1.effects)).all
      isJsonObject = false := by
  decide

/-- C8 (amended). Bounded coalescing: when `writePump` takes a decodable
message from the mailbox while `k` further messages are queued behind it, it
writes one frame, `F ++ "\n" ++ m2 ++ ... ++ "\n" ++ m(k+1)`, where `F` is the
part written for the first message and the others are the queued messages as
they stand, in FIFO order; it makes `1 + 2k` writes between one `NextWriter`
and one `Close`, takes exactly the `k` queued messages and leaves the mailbox
empty. `F` is markup (or empty), not a JSON object. -/
theorem writePump_coalesces (c : Client) (m1 : Bytes) (rest : List Bytes)
    (closed closeErr : Bool) (newMessage : ChatMessage)
    (h : jsonUnmarshalChatMessage m1 = Except.ok newMessage) :
    (writePumpRecv c ⟨m1 :: rest, closed⟩ false closeErr).1.effects =
      [Effect.setWriteDeadline writeWait, Effect.nextWriter TextMessage,
        Effect.println (printStruct newMessage), Effect.println (render c newMessage),
        Effect.write (render c newMessage)]
        ++ rest.flatMap (fun m => [Effect.write newline, Effect.write m])
        ++ [Effect.writerClose] ∧
    frameOf (writePumpRecv c ⟨m1 :: rest, closed⟩ false closeErr).1.effects =
      render c newMessage ++ (rest.map (fun m => "\n".toList ++ m)).flatten ∧
    (writesOf (writePumpRecv c ⟨m1 :: rest, closed⟩ false closeErr).1.effects).length
      = 1 + 2 * rest.length ∧
    (writePumpRecv c ⟨m1 :: rest, closed⟩ false closeErr).2 = ⟨[], closed⟩ ∧
    isJsonObject (render c newMessage) = false := by
  have hr := writePumpRecv_decoded c m1 rest closed closeErr newMessage h
  have hw := writesOf_writePumpRecv c m1 rest closed closeErr newMessage h
  refine ⟨hr.1, ?_, ?_, hr.2.2, render_not_json c newMessage⟩
  · rw [frameOf, hw, List.flatten_cons, flatten_drained]
    rfl
  · rw [hw]
    have : ∀ q : List Bytes, (q.flatMap (fun m => [newline, m])).length = 2 * q.length := by
      intro q
      induction q with
      | nil => rfl
      | cons m q ih =>
        show ([newline, m] ++ q.flatMap (fun m => [newline, m])).length = _
        rw [List.length_append, ih]
        simp only [List.length_cons, List.length_nil]
        omega
    simp only [List.length_cons, this]
    omega

/-- C8 (amended) at client B with A's messages `hi`, `yo` and `ok` in the
mailbox (k = 2). -/
theorem writePump_coalesces_witness :
    frameOf (writePumpRecv clientB
        ⟨[marshalBytes ⟨clientA.id.String, "hi".toList⟩,
          marshalBytes ⟨clientA.id.String, "yo".toList⟩,
          marshalBytes ⟨clientA.id.String, "ok".toList⟩], false⟩ false false).1.effects =
      render clientB ⟨clientA.id.String, "hi".toList⟩ ++
        ([marshalBytes ⟨clientA.id.String, "yo".toList⟩,
          marshalBytes ⟨clientA.id.String, "ok".toList⟩].map
            (fun m => "\n".toList ++ m)).flatten ∧
    (writePumpRecv clientB
        ⟨[marshalBytes ⟨clientA.id.String, "hi".toList⟩,
          marshalBytes ⟨clientA.id.String, "yo".toList⟩,
          marshalBytes ⟨clientA.id.String, "ok".toList⟩], false⟩ false false).2 = ⟨[], false⟩ :=
  ⟨(writePump_coalesces clientB _ _ false false ⟨clientA.id.String, "hi".toList⟩
      (by decide)).2.1,
    (writePump_coalesces clientB _ _ false false ⟨clientA.id.String, "hi".toList⟩
      (by decide)).2.2.2.1⟩

/-- C9. Peer messages carry the receiver's identity: for a client `c` and two
first messages that decode to the same body with senders `a1` and `a2`, both
other than `c`'s identity text, the part `writePump` writes is the same, and so
is the whole frame; for a body other than `{{typing}}` that part is the opening
markup ending in `<strong>`, then `c.id.String()`, then `</strong>: `, then the
body, then the closing markup. The sender of the message is not used. -/
theorem writePump_peer_label (c : Client) (m1 m2 a1 a2 b : Bytes) (rest : List Bytes)
    (closed closeErr : Bool)
    (h1 : jsonUnmarshalChatMessage m1 = Except.ok ⟨a1, b⟩)
    (h2 : jsonUnmarshalChatMessage m2 = Except.ok ⟨a2, b⟩)
    (n1 : a1 ≠ c.id.String) (n2 : a2 ≠ c.id.String) :
    (writesOf (writePumpRecv c ⟨m1 :: rest, closed⟩ false closeErr).1.effects).head?
      = (writesOf (writePumpRecv c ⟨m2 :: rest, closed⟩ false closeErr).1.effects).head? ∧
    frameOf (writePumpRecv c ⟨m1 :: rest, closed⟩ false closeErr).1.effects
      = frameOf (writePumpRecv c ⟨m2 :: rest, closed⟩ false closeErr).1.effects ∧
    (b ≠ typing →
      (writesOf (writePumpRecv c ⟨m1 :: rest, closed⟩ false closeErr).1.effects).head?
        = some ("<div id=\"chatloading\" hx-swap-oob=\"beforebegin\"><p><strong>".toList
            ++ c.id.String ++ "</strong>: ".toList ++ b ++ messageSuffix)) := by
  have w1 := writesOf_writePumpRecv c m1 rest closed closeErr _ h1
  have w2 := writesOf_writePumpRecv c m2 rest closed closeErr _ h2
  have r1 : render c ⟨a1, b⟩ = render c ⟨a2, b⟩ := by
    simp only [render, n1, n2, if_false]
  refine ⟨?_, ?_, ?_⟩
  · rw [w1, w2, r1]
  · rw [frameOf, frameOf, w1, w2, r1]
  · intro hb
    rw [w1]
    simp only [List.head?_cons, render, n1, hb, if_false]
    rfl

set_option maxRecDepth 100000 in
/-- C9 at client B: A's message `hi` and the message `hi` of a sender `mallory`
are written the same way, under B's identity. -/
theorem writePump_peer_label_witness :
    (writesOf (writePumpRecv clientB
        ⟨[marshalBytes ⟨clientA.id.String, "hi".toList⟩], false⟩ false false).1.effects).head?
      = (writesOf (writePumpRecv clientB
        ⟨[marshalBytes ⟨"mallory".toList, "hi".toList⟩], false⟩ false false).1.effects).head? ∧
    (writesOf (writePumpRecv clientB
        ⟨[marshalBytes ⟨clientA.id.String, "hi".toList⟩], false⟩ false false).1.effects).head?
      = some ("<div id=\"chatloading\" hx-swap-oob=\"beforebegin\"><p><strong>".toList
          ++ clientB.id.String ++ "</strong>: ".toList ++ "hi".toList ++ messageSuffix) :=
  ⟨(writePump_peer_label clientB (marshalBytes ⟨clientA.id.String, "hi".toList⟩)
      (marshalBytes ⟨"mallory".toList, "hi".toList⟩)
      clientA.id.String "mallory".toList "hi".toList [] false false
      (by decide) (by decide) (by decide) (by decide)).1,
    (writePump_peer_label clientB (marshalBytes ⟨clientA.id.String, "hi".toList⟩)
      (marshalBytes ⟨"mallory".toList, "hi".toList⟩)
      clientA.id.String "mallory".toList "hi".toList [] false false
      (by decide) (by decide) (by decide) (by decide)).2.2 (by decide)⟩

/-- C10. Bodies go into the markup unescaped: for a client `c` and a first
message that decodes to sender `a` and body `b`, when `b` is not `{{typing}}`
the part `writePump` writes is `prefix ++ b ++ suffix`, where the prefix depends
only on `c` and on whether `a` is `c`'s identity text and the suffix is fixed,
with `b` copied as it is; when `b` is `{{typing}}` the part is empty if `a` is
`c`'s identity text and the fixed typing fragment otherwise. -/
theorem writePump_body_unescaped (c : Client) (m a b : Bytes) (rest : List Bytes)
    (closed closeErr : Bool)
    (h : jsonUnmarshalChatMessage m = Except.ok ⟨a, b⟩) :
    (b ≠ typing →
      (writesOf (writePumpRecv c ⟨m :: rest, closed⟩ false closeErr).1.effects).head?
        = some ((if a = c.id.String then selfPrefix
            else peerPrefix ++ c.id.String ++ peerInfix) ++ b ++ messageSuffix)) ∧
    (b = typing →
      (writesOf (writePumpRecv c ⟨m :: rest, closed⟩ false closeErr).1.effects).head?
        = some (if a = c.id.String then [] else typingFragment)) := by
  have w := writesOf_writePumpRecv c m rest closed closeErr _ h
  rw [w]
  refine ⟨fun hb => ?_, fun hb => ?_⟩
  · by_cases ha : a = c.id.String <;> simp [render, ha, hb]
  · by_cases ha : a = c.id.String <;> simp [render, ha, hb]

set_option maxRecDepth 100000 in
/-- C10 at client B and A's body `<b>&"hi"</b>`: the wire message carries the
body with JSON escapes, and the part written holds it as the client typed it;
A's `{{typing}}` gives B the typing fragment and A nothing. -/
theorem writePump_body_unescaped_witness :
    marshalBytes ⟨clientA.id.String, "<b>&\"hi\"</b>".toList⟩
      = "\x7b\"Sender\":\"00000000-0000-0000-0000-000000000000\",\"Message\":\"\\u003cb\\u003e\\u0026\\\"hi\\\"\\u003c/b\\u003e\"\x7d".toList ∧
    (writesOf (writePumpRecv clientB
        ⟨[marshalBytes ⟨clientA.id.String, "<b>&\"hi\"</b>".toList⟩], false⟩
        false false).1.effects).head?
      = some ((if clientA.id.String = clientB.id.String then selfPrefix
          else peerPrefix ++ clientB.id.String ++ peerInfix) ++ "<b>&\"hi\"</b>".toList
          ++ messageSuffix) ∧
    (writesOf (writePumpRecv clientB
        ⟨[marshalBytes ⟨clientA.id.String, typing⟩], false⟩ false false).1.effects).head?
      = some (if clientA.id.String = clientB.id.String then [] else typingFragment) ∧
    (writesOf (writePumpRecv clientA
        ⟨[marshalBytes ⟨clientA.id.String, typing⟩], false⟩ false false).1.effects).head?
      = some (if clientA.id.String = clientA.id.String then [] else typingFragment) :=
  ⟨by decide,
    (writePump_body_unescaped clientB _ clientA.id.String "<b>&\"hi\"</b>".toList [] false false
      (by decide)).1 (by decide),
    (writePump_body_unescaped clientB _ clientA.id.String typing [] false false
      (by decide)).2 (by decide),
    (writePump_body_unescaped clientA _ clientA.id.String typing [] false false
      (by decide)).2 (by decide)⟩

end GoHTMXWSChat
